import Mathlib

/-!
Verification of the OpenMemory API routers and MCP server
(`openmemory/api/app/routers/memories.py`, `routers/attachments.py`,
`app/mcp_server.py`, `app/schemas.py`) against their natural-language
specification.  The Python source is shallowly embedded: the relational
session becomes an explicit `DB` record threaded through each handler,
JSON metadata becomes an insertion-ordered association list, HTTP errors
become an `HErr` sum, and calls to the external memory client (LLM +
vector store) become an explicit effect trace plus an oracle parameter
for their return values.
-/

namespace Mem0

/-- JSON-ish value stored under a metadata key.  The source stores either a
string scalar or a list of UUID strings under keys such as
`attachment_ids`; both shapes are representable so that claims about
"list, never scalar" are statable. -/
inductive MVal
  | str (s : String)
  | list (l : List String)
  deriving DecidableEq, Repr

/-- A Python dict with string keys, in insertion order (Python 3.7+ dicts
preserve insertion order). -/
abbrev Metadata := List (String × MVal)

/-- Dictionary lookup, `d.get(k)`. -/
def mget (m : Metadata) (k : String) : Option MVal :=
  (m.find? (fun p => p.1 = k)).map (fun p => p.2)

/-- Dictionary assignment `d[k] = v`: replaces in place if the key is
present (keeping its position), otherwise appends. -/
def mset : Metadata → String → MVal → Metadata
  | [], k, v => [(k, v)]
  | (k', v') :: rest, k, v =>
      if k' = k then (k, v) :: rest else (k', v') :: mset rest k v

/-- Memory lifecycle states (`app.models.MemoryState`). -/
inductive MemoryState
  | active | paused | archived | deleted
  deriving DecidableEq, Repr

/-- A row of the `memories` table, restricted to the columns the embedded
handlers read or write. -/
structure Mem where
  id : String
  ownerId : String
  appId : String
  content : String
  metadata : Metadata
  state : MemoryState
  deletedAt : Option Int := none
  archivedAt : Option Int := none
  deriving DecidableEq, Repr

/-- A row of the `attachments` table. -/
structure AttachmentRow where
  id : String
  content : String
  createdAt : Int := 0
  updatedAt : Int := 0
  deriving DecidableEq, Repr

/-- A row of the `memory_status_history` table. -/
structure HistoryRow where
  memoryId : String
  changedBy : String
  oldState : MemoryState
  newState : MemoryState
  deriving DecidableEq, Repr

/-- A row of the `memory_access_logs` table. -/
structure AccessLogRow where
  memoryId : String
  appId : String
  accessType : String
  deriving DecidableEq, Repr

/-- A row of the `users` table: `id` is the internal UUID, `userId` the
external string identity. -/
structure UserRow where
  id : String
  userId : String
  deriving DecidableEq, Repr

/-- A row of the `apps` table. -/
structure AppRow where
  id : String
  name : String
  ownerId : String
  isActive : Bool
  deriving DecidableEq, Repr

/-- An access-control rule row (`app.models.AccessControl`). -/
structure ACLRule where
  subject_type : String
  subject_id : String
  object_type : String
  object_id : Option String
  effect : String
  deriving DecidableEq, Repr

/-- The relational store visible to the embedded handlers. -/
structure DB where
  users : List UserRow := []
  apps : List AppRow := []
  memories : List Mem := []
  attachments : List AttachmentRow := []
  history : List HistoryRow := []
  accessLogs : List AccessLogRow := []
  acl : List ACLRule := []
  deriving DecidableEq, Repr

def findUser (db : DB) (uid : String) : Option UserRow :=
  db.users.find? (fun u => u.userId = uid)

def findMemory (db : DB) (mid : String) : Option Mem :=
  db.memories.find? (fun m => m.id = mid)

def findAttachment (db : DB) (aid : String) : Option AttachmentRow :=
  db.attachments.find? (fun a => a.id = aid)

/-- Replace the memory row with the given id. -/
def replaceMem (db : DB) (m' : Mem) : DB :=
  { db with memories := db.memories.map (fun m => if m.id = m'.id then m' else m) }

/-- Domain-level HTTP error kinds raised by the handlers. -/
inductive HErr
  | notFound | badRequest | conflict | forbidden
  | unavailable | payloadTooLarge | internal
  deriving DecidableEq, Repr

/-- Calls made to the external memory client (mem0), i.e. LLM plus vector
store.  The fast path must produce an empty trace. -/
inductive Effect
  | clientAdd (text : String) (infer extract deduplicate : Bool)
  | clientGet (id : String)
  | clientDelete (id : String)
  deriving DecidableEq, Repr

/-- Truthiness of an optional Python string (`None` and `""` are falsy). -/
def pyTruthyStr : Option String → Bool
  | none => false
  | some s => s ≠ ""

/-! ### Attachment router (`app/routers/attachments.py`) -/

/-- UTF-8 byte length of a string, `len(content.encode('utf-8'))`. -/
def utf8Len (s : String) : Nat :=
  s.data.foldl (fun n c => n + c.utf8Size) 0

/-- Embeds `validate_content_size` (attachments.py lines 19-26): raises
413 iff the UTF-8 byte count strictly exceeds the configured ceiling. -/
def validate_content_size (maxBytes : Nat) (content : String) : Except HErr Unit :=
  if utf8Len content > maxBytes then .error .payloadTooLarge else .ok ()

/-- Embeds `create_attachment` (attachments.py lines 30-60): size check,
then ID-collision check, then insert. -/
def create_attachment (maxBytes : Nat) (freshId : String) (now : Int)
    (db : DB) (content : String) (idOpt : Option String) :
    Except HErr (DB × AttachmentRow) :=
  match validate_content_size maxBytes content with
  | .error e => .error e
  | .ok _ =>
    let aid := idOpt.getD freshId
    match findAttachment db aid with
    | some _ => .error .conflict
    | none =>
      let a : AttachmentRow := ⟨aid, content, now, now⟩
      .ok ({ db with attachments := db.attachments ++ [a] }, a)

/-- Embeds `update_attachment` (attachments.py lines 80-104): size check,
then existence check, then content replacement. -/
def update_attachment (maxBytes : Nat) (now : Int)
    (db : DB) (aid : String) (content : String) :
    Except HErr (DB × AttachmentRow) :=
  match validate_content_size maxBytes content with
  | .error e => .error e
  | .ok _ =>
    match findAttachment db aid with
    | none => .error .notFound
    | some a =>
      let a' : AttachmentRow := { a with content := content, updatedAt := now }
      .ok ({ db with attachments :=
              db.attachments.map (fun x => if x.id = aid then a' else x) }, a')

/-! ### Memories router (`app/routers/memories.py`) -/

/-- Process-wide configuration read through the memory client
(`memory_client.config.*`), plus whether the client could be initialized
at all (`get_memory_client` succeeding and returning non-None). -/
structure Config where
  default_infer : Bool := true
  default_extract : Bool := true
  default_deduplicate : Bool := true
  default_attachment_ids_show : Bool := false
  clientAvailable : Bool := true

/-- Body of `POST /api/v1/memories/` (`CreateMemoryRequest`). -/
structure CreateMemoryRequest where
  user_id : String
  text : String
  metadata : Metadata := []
  infer : Option Bool := none
  extract : Option Bool := none
  deduplicate : Option Bool := none
  app : String := "openmemory"
  attachment_text : Option String := none
  attachment_id : Option String := none

/-- The effective `infer` flag: the request value, defaulting to
`memory_client.config.default_infer` when absent (memories.py line 318). -/
def resolvedInfer (cfg : Config) (req : CreateMemoryRequest) : Bool :=
  req.infer.getD cfg.default_infer

/-- The create-or-verify core of `handle_attachment` (memories.py lines
233-269): create the attachment (409 on ID collision) when
`attachment_text` is truthy, otherwise verify an `attachment_id` (404
when absent); in either case the UUID string is appended to the working
list only when not already a member. -/
def handle_attachment_step (freshAttId : String) (now : Int) (db : DB)
    (attachment_text attachment_id : Option String) (newIds : List String) :
    Except HErr (DB × List String) :=
  if pyTruthyStr attachment_text then
    match findAttachment db (attachment_id.getD freshAttId) with
    | some _ => .error .conflict
    | none =>
      .ok ({ db with attachments := db.attachments ++
               [⟨attachment_id.getD freshAttId, attachment_text.getD "", now, now⟩] },
           if attachment_id.getD freshAttId ∈ newIds then newIds
           else newIds ++ [attachment_id.getD freshAttId])
  else
    match attachment_id with
    | some aid =>
      match findAttachment db aid with
      | none => .error .notFound
      | some _ => .ok (db, if aid ∈ newIds then newIds else newIds ++ [aid])
    | none => .ok (db, newIds)

/-- Embeds `handle_attachment` (memories.py lines 219-275).
`existing_attachment_ids` is the optional seed list (both call sites in
the source pass nothing, i.e. `None`).  The non-empty resulting list is
written under the `attachment_ids` key; otherwise the metadata is
returned untouched. -/
def handle_attachment (freshAttId : String) (now : Int) (db : DB)
    (attachment_text : Option String) (attachment_id : Option String)
    (metadata : Metadata)
    (existing_attachment_ids : Option (List String) := none) :
    Except HErr (DB × Metadata) :=
  match handle_attachment_step freshAttId now db attachment_text attachment_id
          (existing_attachment_ids.getD []) with
  | .error e => .error e
  | .ok (db', ids) =>
    .ok (db', if ids ≠ [] then mset metadata "attachment_ids" (.list ids) else metadata)

/-- One event of the mem0 `add` response (`result['event']`). -/
inductive MEvent
  | ADD | UPDATE | DELETE | NONE
  deriving DecidableEq, Repr

/-- One entry of `qdrant_response['results']`. -/
structure EventResult where
  event : MEvent
  id : String
  memory : String
  deriving DecidableEq, Repr

/-- Outcome of the `memory_client.get(id)` re-read after an UPDATE event:
the call may raise, return a falsy value, or return a dict which may or
may not carry a `metadata` entry. -/
inductive GetResult
  | raised
  | noneResult
  | payload (md : Option Metadata)
  deriving DecidableEq, Repr

/-- Responses of the external memory client consumed by the handlers:
`addResults = none` models an `add` response that is not a dict carrying
`results`. -/
structure Oracle where
  addOk : Bool := true
  addResults : Option (List EventResult) := none
  get : String → GetResult

/-- Working state of the response-processing loop in `create_memory`
(memories.py lines 394-472): the session, the mutable `metadata` dict
threaded across events, the `created_memories` accumulator, and the
external-client effect trace. -/
structure IngestState where
  db : DB
  meta : Metadata
  created : List Mem
  fx : List Effect
  deriving Repr

/-- Embeds one iteration of the event loop of `create_memory`
(memories.py lines 397-471).  ADD inserts or re-activates the row under
the vector-store ID; UPDATE (lines 434-466) re-reads the vector payload,
copies its `attachment_ids` into the threaded metadata when present,
replaces the content and emits an `active→active` history row; DELETE is
not handled by this REST endpoint, and NONE does nothing.  The MCP
`add_memories` tool (mcp_server.py lines 157-227) runs the same UPDATE
logic over `combined_metadata`. -/
def create_memory_apply_result (get : String → GetResult) (userId appId : String)
    (st : IngestState) (r : EventResult) : IngestState :=
  match r.event with
  | .ADD =>
    match findMemory st.db r.id with
    | some m =>
      let m' := { m with state := MemoryState.active, content := r.memory,
                         metadata := st.meta }
      let db' := replaceMem st.db m'
      ⟨{ db' with history := db'.history ++ [⟨r.id, userId, .deleted, .active⟩] },
       st.meta, st.created ++ [m'], st.fx⟩
    | none =>
      let m' : Mem := { id := r.id, ownerId := userId, appId := appId,
                        content := r.memory, metadata := st.meta,
                        state := MemoryState.active }
      ⟨{ st.db with memories := st.db.memories ++ [m'],
                    history := st.db.history ++ [⟨r.id, userId, .deleted, .active⟩] },
       st.meta, st.created ++ [m'], st.fx⟩
  | .UPDATE =>
    match findMemory st.db r.id with
    | none => st
    | some m =>
      let fx' := st.fx ++ [.clientGet r.id]
      let meta' :=
        match get r.id with
        | .payload (some vmd) =>
          match mget vmd "attachment_ids" with
          | some v => mset st.meta "attachment_ids" v
          | none => st.meta
        | _ => st.meta
      let m' := { m with content := r.memory, metadata := meta' }
      let db' := replaceMem st.db m'
      ⟨{ db' with history := db'.history ++ [⟨r.id, userId, .active, .active⟩] },
       meta', st.created ++ [m'], fx'⟩
  | .DELETE => st
  | .NONE => st

/-- Folds the event loop over the whole response list, in list order. -/
def create_memory_apply_all (get : String → GetResult) (userId appId : String)
    (results : List EventResult) (st : IngestState) : IngestState :=
  results.foldl (create_memory_apply_result get userId appId) st

/-- Value returned by `create_memory`. -/
inductive CreateOutcome
  | created (m : Mem)
  | noneEvent (originalText : String)
  | nullResponse
  deriving DecidableEq, Repr

/-- Result of a REST handler: either a response with the durable database
state and the external-client effect trace, or an HTTP error together
with the state as of the last commit (uncommitted session changes are
rolled back when the request unwinds). -/
inductive RestResult (α : Type)
  | ok (db : DB) (fx : List Effect) (v : α)
  | err (db : DB) (fx : List Effect) (e : HErr)
  deriving DecidableEq, Repr

/-- Embeds `create_memory` (memories.py lines 279-495).  After the user
lookup, app get-or-create (committed immediately), active check, client
check and flag resolution, `infer=false` takes the fast path (lines
329-359): attachment intake, a metadata row with the raw request text, a
`deleted→active` history row, commit — with no external-client call.
`infer=true` performs attachment intake, one `memory_client.add` call,
and then the event loop; when no memory was created the handler returns
the NONE payload without committing, so the session (including the
intake's flushed attachment) is rolled back to the last commit. -/
def create_memory (cfg : Config) (freshAppId freshMemId freshAttId : String)
    (now : Int) (oracle : Oracle) (db : DB) (req : CreateMemoryRequest) :
    RestResult CreateOutcome :=
  match findUser db req.user_id with
  | none => .err db [] .notFound
  | some user =>
    let appState : DB × AppRow :=
      match db.apps.find? (fun a => a.name = req.app ∧ a.ownerId = user.id) with
      | some a => (db, a)
      | none =>
        let a : AppRow := ⟨freshAppId, req.app, user.id, true⟩
        ({ db with apps := db.apps ++ [a] }, a)
    let db1 := appState.1
    let appRow := appState.2
    if !appRow.isActive then .err db1 [] .forbidden
    else if !cfg.clientAvailable then .err db1 [] .unavailable
    else
      let infer_value := req.infer.getD cfg.default_infer
      let extract_value := if !infer_value then false else req.extract.getD cfg.default_extract
      let deduplicate_value := if !infer_value then false else req.deduplicate.getD cfg.default_deduplicate
      match handle_attachment freshAttId now db1 req.attachment_text req.attachment_id req.metadata none with
      | .error e => .err db1 [] e
      | .ok (db2, md) =>
        if !infer_value then
          let mem : Mem := { id := freshMemId, ownerId := user.id, appId := appRow.id,
                             content := req.text, metadata := md,
                             state := MemoryState.active }
          .ok { db2 with memories := db2.memories ++ [mem],
                         history := db2.history ++ [⟨freshMemId, user.id, .deleted, .active⟩] }
              [] (.created mem)
        else
          let fx0 : List Effect := [.clientAdd req.text infer_value extract_value deduplicate_value]
          if !oracle.addOk then .err db1 fx0 .internal
          else
            match oracle.addResults with
            | none => .ok db1 fx0 .nullResponse
            | some results =>
              let st := create_memory_apply_all oracle.get user.id appRow.id results
                          ⟨db2, md, [], fx0⟩
              match st.created with
              | [] => .ok db1 st.fx (.noneEvent req.text)
              | m :: _ => .ok st.db st.fx (.created m)

/-- Embeds `update_memory_state` (memories.py lines 38-58): 404 when the
memory is absent, otherwise set the new state (stamping `archived_at` or
`deleted_at`), append a history row recording the observed transition,
and commit. -/
def update_memory_state (now : Int) (db : DB) (memoryId : String)
    (newState : MemoryState) (byUser : String) : Except HErr DB :=
  match findMemory db memoryId with
  | none => .error .notFound
  | some m =>
    let m' := { m with state := newState,
                       archivedAt := if newState = MemoryState.archived then some now else m.archivedAt,
                       deletedAt := if newState = MemoryState.deleted then some now else m.deletedAt }
    let db1 := replaceMem db m'
    .ok { db1 with history := db1.history ++ [⟨memoryId, byUser, m.state, newState⟩] }

/-- Embeds the attachment-cascade body shared by the REST `delete_memories`
(memories.py lines 552-571) and the MCP delete tools (mcp_server.py lines
601-621): read the row's `attachment_ids` list (default empty), add a
legacy scalar `attachment_id` when present and not yet listed, and delete
the named attachment rows, silently skipping unparseable entries.  The
in-place mutation of the row's own metadata list by the legacy append is
not modelled. -/
def deleteAttachmentsForMemory (db : DB) (mid : String) : DB :=
  match findMemory db mid with
  | none => db
  | some m =>
    if m.metadata = [] then db
    else
      let ids0 : List String :=
        match mget m.metadata "attachment_ids" with
        | some (.list l) => l
        | _ => []
      let ids : List String :=
        match mget m.metadata "attachment_id" with
        | some (.str s) => if s ≠ "" ∧ s ∉ ids0 then ids0 ++ [s] else ids0
        | _ => ids0
      { db with attachments := db.attachments.filter (fun a => a.id ∉ ids) }

/-- Body of `DELETE /api/v1/memories/` (`DeleteMemoriesRequest`). -/
structure DeleteMemoriesRequest where
  memory_ids : List String
  user_id : String
  delete_attachments : Bool := false

/-- Embeds the per-ID loop of the REST `delete_memories` (memories.py
lines 574-582): for each listed ID, issue the idempotent vector-store
delete, then `update_memory_state` — which commits, making every pending
session change durable; a missing ID raises 404 there, leaving the state
as of the last commit. -/
def delete_memories_loop (now : Int) (byUser : String) :
    List String → DB → DB → List Effect → RestResult Unit
  | [], _pending, committed, fx => .ok committed fx ()
  | mid :: rest, pending, committed, fx =>
    let fx' := fx ++ [.clientDelete mid]
    match update_memory_state now pending mid MemoryState.deleted byUser with
    | .error e => .err committed fx' e
    | .ok db' => delete_memories_loop now byUser rest db' db' fx'

/-- Embeds the REST `delete_memories` handler (memories.py lines 525-584):
user lookup, client check, optional attachment cascade (flushed, durable
only from the first commit inside the deletion loop), then the deletion
loop; on success the response reports the count of listed IDs. -/
def delete_memories (cfg : Config) (now : Int) (db : DB)
    (req : DeleteMemoriesRequest) : RestResult Nat :=
  match findUser db req.user_id with
  | none => .err db [] .notFound
  | some user =>
    if !cfg.clientAvailable then .err db [] .unavailable
    else
      let dbA := if req.delete_attachments
                 then req.memory_ids.foldl deleteAttachmentsForMemory db
                 else db
      match delete_memories_loop now user.id req.memory_ids dbA db [] with
      | .ok db' fx _ => .ok db' fx req.memory_ids.length
      | .err db' fx e => .err db' fx e

/-- Embeds `update_memory`, the `PUT /api/v1/memories/{id}` handler
(memories.py lines 711-724): user lookup, memory lookup, replace the
content column, commit, return the row.  No history row, no access-log
row, and no memory-client call is made. -/
def update_memory (db : DB) (memoryId : String)
    (memory_content : String) (user_id : String) : RestResult Mem :=
  match findUser db user_id with
  | none => .err db [] .notFound
  | some _ =>
    match findMemory db memoryId with
    | none => .err db [] .notFound
    | some m =>
      let m' := { m with content := memory_content }
      .ok (replaceMem db m') [] m'

/-! ### ACL evaluator (`get_accessible_memory_ids`, memories.py lines 61-98) -/

/-- The rule filter of memories.py lines 67-71: app-level rules about
memories for the given app. -/
def isAppMemoryRule (appId : String) (r : ACLRule) : Bool :=
  r.subject_type = "app" ∧ r.subject_id = appId ∧ r.object_type = "memory"

/-- Set-insertion into a list used to model Python `set.add`. -/
def insertSet (l : List String) (x : String) : List String :=
  if x ∈ l then l else l ++ [x]

/-- Embeds the rule-processing loop of `get_accessible_memory_ids`
(memories.py lines 82-98), iterating rules in fetched order: an allow
rule with a truthy `object_id` adds it to the allowed set, an allow rule
without one returns `none` (all memories allowed) at once; a deny rule
with a truthy `object_id` adds it to the denied set, a deny rule without
one returns the empty set at once.  After the loop, the denied set is
subtracted when the allowed set is non-empty. -/
def aclLoop : List ACLRule → List String → List String → Option (List String)
  | [], allowed, denied =>
    some (if allowed ≠ [] then allowed.filter (fun x => x ∉ denied) else allowed)
  | r :: rest, allowed, denied =>
    if r.effect = "allow" then
      if pyTruthyStr r.object_id then
        aclLoop rest (insertSet allowed (r.object_id.getD "")) denied
      else none
    else if r.effect = "deny" then
      if pyTruthyStr r.object_id then
        aclLoop rest allowed (insertSet denied (r.object_id.getD ""))
      else some []
    else aclLoop rest allowed denied

/-- Embeds `get_accessible_memory_ids` (memories.py lines 61-98): `none`
means "no restriction, every memory accessible", `some l` means exactly
the IDs in `l` are accessible. -/
def get_accessible_memory_ids (db : DB) (appId : String) : Option (List String) :=
  let app_access := db.acl.filter (isAppMemoryRule appId)
  if app_access = [] then none else aclLoop app_access [] []

/-- Accessibility of one memory ID under the evaluator's result, as its
callers interpret it (`none` = unconstrained). -/
def memoryAccessible (db : DB) (appId mid : String) : Bool :=
  match get_accessible_memory_ids db appId with
  | none => true
  | some l => mid ∈ l

/-- The first rule of the list whose `object_id` is null and whose effect
is `allow` or `deny` — the rule at which the loop of
`get_accessible_memory_ids` short-circuits. -/
def firstGlobalRule (rs : List ACLRule) : Option ACLRule :=
  rs.find? (fun r => !(pyTruthyStr r.object_id) ∧ (r.effect = "allow" ∨ r.effect = "deny"))

/-! ### MCP server (`app/mcp_server.py`) -/

/-- Modelled from the spec: `get_user_and_app` lives in `app/utils/db.py`,
which is not among the provided sources.  Per spec §4.C it
"is idempotent: it atomically upserts both rows and returns their
internal IDs" — find or create the user row for the external identity,
then find or create an (active) app row of that name owned by the user,
committing any creation. -/
def get_user_and_app (db : DB) (freshUserId freshAppId : String)
    (uid clientName : String) : DB × UserRow × AppRow :=
  let userState : DB × UserRow :=
    match findUser db uid with
    | some u => (db, u)
    | none =>
      let u : UserRow := ⟨freshUserId, uid⟩
      ({ db with users := db.users ++ [u] }, u)
  let db1 := userState.1
  let user := userState.2
  match db1.apps.find? (fun a => a.name = clientName ∧ a.ownerId = user.id) with
  | some a => (db1, user, a)
  | none =>
    let a : AppRow := ⟨freshAppId, clientName, user.id, true⟩
    ({ db1 with apps := db1.apps ++ [a] }, user, a)

/-- Value returned by the MCP `delete_memories` tool (as a JSON string in
the source). -/
inductive McpDeleteResult
  | missingUserId | missingClientName | clientUnavailable
  | noValidMemories
  | deleted (n : Nat)
  deriving DecidableEq, Repr

/-- Embeds the MCP `delete_memories` tool (mcp_server.py lines 563-663).
`perm` abstracts `check_memory_access_permissions` (`app/utils/permissions.py`,
not among the provided sources); `isValidUUID` abstracts `uuid.UUID`
parse success.  Listed IDs that are unparseable, missing or denied are
filtered out; when none survive, the tool replies with an error payload
and nothing changes.  Otherwise: optional attachment cascade, one
vector-store delete per surviving ID, then state updates with hardcoded
`active→deleted` history rows plus `delete` access-log rows, and one
commit. -/
def mcp_delete_memories (cfg : Config) (now : Int) (freshUserId freshAppId : String)
    (uid clientName : Option String) (isValidUUID : String → Bool)
    (perm : Mem → String → Bool) (db : DB)
    (memory_ids : List String) (delete_attachments : Bool) :
    DB × List Effect × McpDeleteResult :=
  if !pyTruthyStr uid then (db, [], .missingUserId)
  else if !pyTruthyStr clientName then (db, [], .missingClientName)
  else if !cfg.clientAvailable then (db, [], .clientUnavailable)
  else
    let uaa := get_user_and_app db freshUserId freshAppId (uid.getD "") (clientName.getD "")
    let db1 := uaa.1
    let user := uaa.2.1
    let app := uaa.2.2
    let memory_uuids := memory_ids.filter (fun s =>
      isValidUUID s &&
        (match findMemory db1 s with
         | some m => perm m app.id
         | none => false))
    if memory_uuids = [] then (db1, [], .noValidMemories)
    else
      let db2 := if delete_attachments
                 then memory_uuids.foldl deleteAttachmentsForMemory db1
                 else db1
      let fx := memory_uuids.map (fun mid => Effect.clientDelete mid)
      let db3 := memory_uuids.foldl (fun d mid =>
        match findMemory d mid with
        | none => d
        | some m =>
          let m' := { m with state := MemoryState.deleted, deletedAt := some now }
          let d1 := replaceMem d m'
          { d1 with history := d1.history ++ [⟨mid, user.id, .active, .deleted⟩],
                    accessLogs := d1.accessLogs ++ [⟨mid, app.id, "delete"⟩] }) db2
      (db3, fx, .deleted memory_uuids.length)

/-- Embeds the attachment intake of the MCP `add_memories` tool
(mcp_server.py lines 114-148): an empty `new_attachment_ids` list, one
create-or-verify step appending at most one UUID string, and the
`attachment_ids` key written onto `combined_metadata` only when the list
is non-empty. -/
def mcp_attachment_intake (freshAttId : String) (now : Int) (db : DB)
    (attachment_text attachment_id : Option String)
    (combined_metadata : Metadata) : Except HErr (DB × Metadata) :=
  let step : Except HErr (DB × List String) :=
    if pyTruthyStr attachment_text then
      let newAttId := attachment_id.getD freshAttId
      match findAttachment db newAttId with
      | some _ => .error .conflict
      | none =>
        .ok ({ db with attachments :=
                 db.attachments ++ [⟨newAttId, attachment_text.getD "", now, now⟩] },
             [newAttId])
    else if pyTruthyStr attachment_id then
      match findAttachment db (attachment_id.getD "") with
      | none => .error .notFound
      | some _ => .ok (db, [attachment_id.getD ""])
    else .ok (db, [])
  match step with
  | .error e => .error e
  | .ok (db', ids) =>
    .ok (db', if ids ≠ [] then mset combined_metadata "attachment_ids" (.list ids)
              else combined_metadata)

/-- One hit returned by `memory_client.vector_store.search` (an
`OutputData` value: id, score, payload).  The numeric score is carried
opaquely and never computed with. -/
structure Hit where
  id : Option String
  score : Int
  payload : Metadata
  deriving DecidableEq, Repr

/-- One entry of the `results` list built by the MCP `search_memory`
tool. -/
structure SearchResultRec where
  id : Option String
  memory : Option MVal
  hash : Option MVal
  created_at : Option MVal
  updated_at : Option MVal
  score : Int
  metadata : Option Metadata := none
  deriving DecidableEq, Repr

/-- Value returned by the MCP `search_memory` tool: the error payloads for
missing identity or unavailable client, the catch-all error string
produced when the handler body raises, or the JSON results document. -/
inductive SearchOutcome
  | missingUserId | missingClientName | clientUnavailable
  | raisedError
  | ok (results : List SearchResultRec)
  deriving DecidableEq, Repr

/-- Embeds the hit-filtering loop of `search_memory` (mcp_server.py lines
290-331).  The guard is
`if allowed and h.id is None or h.id not in allowed`, which Python parses
as `(allowed and h.id is None) or (h.id not in allowed)`: when `allowed`
is `None` (the empty accessible list was falsy) the first conjunct is
falsy and the membership test `h.id not in None` raises `TypeError`,
modelled as `.error`.  When `allowed` is a (non-empty, hence truthy) set,
hits with a missing or non-member ID are skipped.  Kept hits are
projected from the payload and optionally enriched with row metadata;
`uuid.UUID(id)` failures also raise. -/
def search_loop (db1 : DB) (allowed : Option (List String))
    (agent_id : Option String) (include_metadata attachment_ids_value : Bool)
    (isValidUUID : String → Bool) : List Hit → Except Unit (List SearchResultRec)
  | [] => .ok []
  | h :: rest =>
    match allowed with
    | none => .error ()
    | some s =>
      let keep := match h.id with
                  | none => false
                  | some i => i ∈ s
      if !keep then search_loop db1 allowed agent_id include_metadata attachment_ids_value isValidUUID rest
      else
        let i := h.id.getD ""
        let base : SearchResultRec :=
          { id := h.id, memory := mget h.payload "data", hash := mget h.payload "hash",
            created_at := mget h.payload "created_at",
            updated_at := mget h.payload "updated_at", score := h.score }
        let needsRecord := (pyTruthyStr agent_id || include_metadata || attachment_ids_value)
                             && pyTruthyStr h.id
        if !needsRecord then
          match search_loop db1 allowed agent_id include_metadata attachment_ids_value isValidUUID rest with
          | .error e => .error e
          | .ok rs => .ok (base :: rs)
        else if !isValidUUID i then .error ()
        else
          let record := findMemory db1 i
          let dropByAgent :=
            pyTruthyStr agent_id &&
              (match record with
               | none => true
               | some rec_ =>
                 rec_.metadata = [] ||
                   mget rec_.metadata "agent_id" ≠ some (.str (agent_id.getD "")))
          if dropByAgent then
            search_loop db1 allowed agent_id include_metadata attachment_ids_value isValidUUID rest
          else
            let withMeta : SearchResultRec :=
              match record with
              | some rec_ =>
                if include_metadata ∧ rec_.metadata ≠ [] then
                  { base with metadata := some rec_.metadata }
                else if attachment_ids_value ∧ rec_.metadata ≠ [] then
                  let only : Metadata := [("attachment_ids", (mget rec_.metadata "attachment_ids").getD (.list []))]
                  { base with metadata := some only }
                else base
              | none => base
            match search_loop db1 allowed agent_id include_metadata attachment_ids_value isValidUUID rest with
            | .error e => .error e
            | .ok rs => .ok (withMeta :: rs)

/-- Embeds the MCP `search_memory` tool (mcp_server.py lines 239-353):
identity and client checks, the per-user permission scan producing
`accessible_memory_ids`, `allowed = set(...) if accessible_memory_ids
else None`, the hit loop, then one `search` access-log row per returned
hit with an ID, and a commit.  A raise inside the body is caught by the
outer handler and returned as an error string, with the uncommitted logs
rolled back. -/
def search_memory (cfg : Config) (freshUserId freshAppId : String)
    (perm : Mem → String → Bool) (isValidUUID : String → Bool) (hits : List Hit)
    (uid clientName : Option String) (agent_id : Option String)
    (include_metadata : Bool) (attachment_ids_show : Option Bool)
    (db : DB) : DB × SearchOutcome :=
  if !pyTruthyStr uid then (db, .missingUserId)
  else if !pyTruthyStr clientName then (db, .missingClientName)
  else if !cfg.clientAvailable then (db, .clientUnavailable)
  else
    let attachment_ids_value := attachment_ids_show.getD cfg.default_attachment_ids_show
    let uaa := get_user_and_app db freshUserId freshAppId (uid.getD "") (clientName.getD "")
    let db1 := uaa.1
    let user := uaa.2.1
    let app := uaa.2.2
    let user_memories := db1.memories.filter (fun m => m.ownerId = user.id)
    let accessible := (user_memories.filter (fun m => perm m app.id)).map (fun m => m.id)
    let allowed : Option (List String) := if accessible ≠ [] then some accessible else none
    match search_loop db1 allowed agent_id include_metadata attachment_ids_value isValidUUID hits with
    | .error _ => (db1, .raisedError)
    | .ok results =>
      let logs := (results.filter (fun r => pyTruthyStr r.id)).map
        (fun r => AccessLogRow.mk (r.id.getD "") app.id "search")
      ({ db1 with accessLogs := db1.accessLogs ++ logs }, .ok results)

/-! ### Attachment filtering (`filter_attachments`, attachments.py lines 151-257) -/

/-- Truthiness of an optional Python int (`None` and `0` are falsy). -/
def pyTruthyInt : Option Int → Bool
  | none => false
  | some n => n ≠ 0

/-- Character-list prefix test, helper for the substring match. -/
def charsStartWith : List Char → List Char → Bool
  | _, [] => true
  | [], _ :: _ => false
  | h :: hs, n :: ns => h = n && charsStartWith hs ns

/-- Character-list substring test, helper for the `ILIKE '%q%'` match. -/
def charsContain : List Char → List Char → Bool
  | [], needle => needle.isEmpty
  | h :: t, needle => charsStartWith (h :: t) needle || charsContain t needle

/-- Case-insensitive substring match modelling `column.ilike('%q%')`. -/
def ilikeContains (hay pat : String) : Bool :=
  charsContain hay.toLower.data pat.toLower.data

/-- Stable insertion into a list sorted by `le`. -/
def insertSorted (le : AttachmentRow → AttachmentRow → Bool)
    (a : AttachmentRow) : List AttachmentRow → List AttachmentRow
  | [] => [a]
  | b :: t => if le a b then a :: b :: t else b :: insertSorted le a t

/-- Sorts rows by `le` (models the SQL ORDER BY). -/
def sortRows (le : AttachmentRow → AttachmentRow → Bool)
    (l : List AttachmentRow) : List AttachmentRow :=
  l.foldr (insertSorted le) []

/-- Body of `POST /api/v1/attachments/filter` (`FilterAttachmentsRequest`).
The pydantic model declares `page: int = 1` and `size: int = 10` with no
bounds. -/
structure FilterAttachmentsRequest where
  page : Int := 1
  size : Int := 10
  search_query : Option String := none
  sort_column : Option String := none
  sort_direction : Option String := none
  from_date : Option Int := none
  to_date : Option Int := none

/-- One page item of the filter response, carrying the 200-character
preview and the full length. -/
structure AttachmentListItem where
  id : String
  content : String
  content_length : Nat
  created_at : Int
  updated_at : Int
  deriving DecidableEq, Repr

/-- Outcome of `filter_attachments`: a page, an explicit `HTTPException`
(400 for bad sort parameters), or an uncaught `ZeroDivisionError` from
the pages computation, which surfaces as an HTTP 500. -/
inductive FilterOutcome
  | ok (items : List AttachmentListItem) (total : Nat) (page size pages : Int)
  | httpError (e : HErr)
  | zeroDivision
  deriving DecidableEq, Repr

/-- Embeds `filter_attachments` (attachments.py lines 151-257): search and
date filters, `total = query.count()`, sort validation (400 on a bad
direction or column), `pages = (total + size - 1) // size if total > 0
else 1` — an unguarded division that raises `ZeroDivisionError` when
`size=0` and rows matched — then `offset((page-1)*size).limit(size)`.
The offset/limit follow SQLite semantics: a negative offset acts as 0
and a negative limit means no limit. -/
def filter_attachments (db : DB) (request : FilterAttachmentsRequest) : FilterOutcome :=
  let q1 := match request.search_query with
    | some sq =>
      if sq ≠ "" then
        db.attachments.filter (fun a => ilikeContains a.content sq || ilikeContains a.id sq)
      else db.attachments
    | none => db.attachments
  let q2 := if pyTruthyInt request.from_date
            then q1.filter (fun a => a.createdAt ≥ request.from_date.getD 0)
            else q1
  let q3 := if pyTruthyInt request.to_date
            then q2.filter (fun a => a.createdAt ≤ request.to_date.getD 0)
            else q2
  let total : Nat := q3.length
  let sorted : Except HErr (List AttachmentRow) :=
    if pyTruthyStr request.sort_column ∧ pyTruthyStr request.sort_direction then
      let dir := (request.sort_direction.getD "").toLower
      if dir ≠ "asc" ∧ dir ≠ "desc" then .error .badRequest
      else
        let col := request.sort_column.getD ""
        if col = "size" then
          .ok (if dir = "desc"
               then sortRows (fun a b => b.content.length ≤ a.content.length) q3
               else sortRows (fun a b => a.content.length ≤ b.content.length) q3)
        else if col = "created_at" then
          .ok (if dir = "desc"
               then sortRows (fun a b => b.createdAt ≤ a.createdAt) q3
               else sortRows (fun a b => a.createdAt ≤ b.createdAt) q3)
        else if col = "updated_at" then
          .ok (if dir = "desc"
               then sortRows (fun a b => b.updatedAt ≤ a.updatedAt) q3
               else sortRows (fun a b => a.updatedAt ≤ b.updatedAt) q3)
        else .error .badRequest
    else .ok (sortRows (fun a b => b.createdAt ≤ a.createdAt) q3)
  match sorted with
  | .error e => .httpError e
  | .ok rows =>
    if request.size = 0 ∧ total > 0 then .zeroDivision
    else
      let pages : Int := if total > 0
                         then Int.fdiv ((total : Int) + request.size - 1) request.size
                         else 1
      let afterOffset := rows.drop ((request.page - 1) * request.size).toNat
      let pageRows := if request.size < 0 then afterOffset
                      else afterOffset.take request.size.toNat
      let items := pageRows.map (fun a =>
        AttachmentListItem.mk a.id
          (if a.content.length > 200 then a.content.take 200 else a.content)
          a.content.length a.createdAt a.updatedAt)
      .ok items total request.page request.size pages

/-! ### Helper lemmas -/

theorem find?_replace_self (l : List Mem) (m m' : Mem)
    (h : l.find? (fun x => x.id = m'.id) = some m) :
    (l.map (fun x => if x.id = m'.id then m' else x)).find? (fun x => x.id = m'.id) = some m' := by
  induction l with
  | nil => simp at h
  | cons a t ih =>
    by_cases ha : a.id = m'.id
    · simp only [List.map_cons, if_pos ha]
      simp [List.find?_cons]
    · simp only [List.find?_cons, decide_eq_false ha] at h
      simp only [List.map_cons, if_neg ha, List.find?_cons, decide_eq_false ha]
      exact ih (by simpa using h)

theorem find?_replace_ne (l : List Mem) (m' : Mem) (y : String) (hy : y ≠ m'.id) :
    (l.map (fun x => if x.id = m'.id then m' else x)).find? (fun x => x.id = y) =
      l.find? (fun x => x.id = y) := by
  induction l with
  | nil => simp
  | cons a t ih =>
    by_cases ha : a.id = m'.id
    · have h1 : ¬ (m'.id = y) := fun hc => hy hc.symm
      have h2 : ¬ (a.id = y) := fun hc => hy (hc.symm.trans ha)
      simp only [List.map_cons, if_pos ha]
      simp only [List.find?_cons, decide_eq_false h1, decide_eq_false h2]
      exact ih
    · by_cases hay : a.id = y
      · simp only [List.map_cons, if_neg ha]
        simp [List.find?_cons, decide_eq_true hay]
      · simp only [List.map_cons, if_neg ha]
        simp only [List.find?_cons, decide_eq_false hay]
        exact ih

theorem find?_replace_isSome (l : List Mem) (m' : Mem) (y : String) :
    ((l.map (fun x => if x.id = m'.id then m' else x)).find? (fun x => x.id = y)).isSome =
      (l.find? (fun x => x.id = y)).isSome := by
  induction l with
  | nil => simp
  | cons a t ih =>
    by_cases ha : a.id = m'.id
    · by_cases hmy : m'.id = y
      · have hay : a.id = y := ha.trans hmy
        simp only [List.map_cons, if_pos ha]
        simp [List.find?_cons, decide_eq_true hmy, decide_eq_true hay]
      · have hay : ¬ (a.id = y) := fun hc => hmy (ha.symm.trans hc)
        simp only [List.map_cons, if_pos ha]
        simp only [List.find?_cons, decide_eq_false hmy, decide_eq_false hay]
        exact ih
    · by_cases hay : a.id = y
      · simp only [List.map_cons, if_neg ha]
        simp [List.find?_cons, decide_eq_true hay]
      · simp only [List.map_cons, if_neg ha]
        simp only [List.find?_cons, decide_eq_false hay]
        exact ih

theorem findMemory_replaceMem_self (db : DB) (m m' : Mem)
    (h : findMemory db m'.id = some m) :
    findMemory (replaceMem db m') m'.id = some m' :=
  find?_replace_self db.memories m m' h

theorem findMemory_replaceMem_ne (db : DB) (m' : Mem) (y : String) (hy : y ≠ m'.id) :
    findMemory (replaceMem db m') y = findMemory db y :=
  find?_replace_ne db.memories m' y hy

theorem findMemory_eq_of_memories_eq (p c : DB) (h : p.memories = c.memories) (y : String) :
    findMemory p y = findMemory c y := by
  unfold findMemory
  rw [h]

theorem findMemory_id_eq (db : DB) (mid : String) (m : Mem)
    (h : findMemory db mid = some m) : m.id = mid := by
  have := List.find?_some h
  simpa using this

theorem findMemory_replaceMem_isSome (db : DB) (m' : Mem) (y : String) :
    (findMemory (replaceMem db m') y).isSome = (findMemory db y).isSome :=
  find?_replace_isSome db.memories m' y

/-- The record written for a memory by a successful `update_memory_state`. -/
def stateUpdatedMem (now : Int) (m : Mem) (newState : MemoryState) : Mem :=
  { m with state := newState,
           archivedAt := if newState = MemoryState.archived then some now else m.archivedAt,
           deletedAt := if newState = MemoryState.deleted then some now else m.deletedAt }

theorem update_memory_state_run (now : Int) (db : DB) (mid : String)
    (newState : MemoryState) (byUser : String) (m : Mem)
    (hm : findMemory db mid = some m) :
    update_memory_state now db mid newState byUser =
      .ok { replaceMem db (stateUpdatedMem now m newState) with
            history := db.history ++ [⟨mid, byUser, m.state, newState⟩] } := by
  unfold update_memory_state
  rw [hm]
  rfl

theorem update_memory_state_none (now : Int) (db : DB) (mid : String)
    (newState : MemoryState) (byUser : String)
    (hm : findMemory db mid = none) :
    update_memory_state now db mid newState byUser = .error .notFound := by
  unfold update_memory_state
  rw [hm]

theorem stateUpdatedMem_id (now : Int) (m : Mem) (s : MemoryState) :
    (stateUpdatedMem now m s).id = m.id := rfl

theorem handle_attachment_step_frame (freshAttId : String) (now : Int) (db : DB)
    (attachment_text attachment_id : Option String) (newIds : List String)
    (db' : DB) (ids : List String)
    (h : handle_attachment_step freshAttId now db attachment_text attachment_id newIds = .ok (db', ids)) :
    db'.users = db.users ∧ db'.apps = db.apps ∧ db'.memories = db.memories ∧
    db'.history = db.history ∧ db'.accessLogs = db.accessLogs ∧ db'.acl = db.acl := by
  unfold handle_attachment_step at h
  split at h
  next =>
    split at h
    next => simp at h
    next =>
      simp only [Except.ok.injEq, Prod.mk.injEq] at h
      obtain ⟨hdb, -⟩ := h
      subst hdb
      exact ⟨rfl, rfl, rfl, rfl, rfl, rfl⟩
  next =>
    split at h
    next =>
      split at h
      next => simp at h
      next =>
        simp only [Except.ok.injEq, Prod.mk.injEq] at h
        obtain ⟨hdb, -⟩ := h
        subst hdb
        exact ⟨rfl, rfl, rfl, rfl, rfl, rfl⟩
    next =>
      simp only [Except.ok.injEq, Prod.mk.injEq] at h
      obtain ⟨hdb, -⟩ := h
      subst hdb
      exact ⟨rfl, rfl, rfl, rfl, rfl, rfl⟩

theorem handle_attachment_frame (freshAttId : String) (now : Int) (db : DB)
    (attachment_text attachment_id : Option String) (metadata : Metadata)
    (exist : Option (List String)) (db' : DB) (meta' : Metadata)
    (h : handle_attachment freshAttId now db attachment_text attachment_id metadata exist = .ok (db', meta')) :
    db'.users = db.users ∧ db'.apps = db.apps ∧ db'.memories = db.memories ∧
    db'.history = db.history ∧ db'.accessLogs = db.accessLogs ∧ db'.acl = db.acl := by
  unfold handle_attachment at h
  cases hstep : handle_attachment_step freshAttId now db attachment_text attachment_id
      (exist.getD []) with
  | error e => rw [hstep] at h; simp at h
  | ok p =>
    rw [hstep] at h
    obtain ⟨dbs, ids⟩ := p
    simp only [Except.ok.injEq, Prod.mk.injEq] at h
    obtain ⟨hdb, -⟩ := h
    subst hdb
    exact handle_attachment_step_frame freshAttId now db attachment_text attachment_id _ _ _ hstep

theorem deleteAttachmentsForMemory_frame (db : DB) (mid : String) :
    (deleteAttachmentsForMemory db mid).users = db.users ∧
    (deleteAttachmentsForMemory db mid).apps = db.apps ∧
    (deleteAttachmentsForMemory db mid).memories = db.memories ∧
    (deleteAttachmentsForMemory db mid).history = db.history ∧
    (deleteAttachmentsForMemory db mid).accessLogs = db.accessLogs ∧
    (deleteAttachmentsForMemory db mid).acl = db.acl := by
  unfold deleteAttachmentsForMemory
  split
  · exact ⟨rfl, rfl, rfl, rfl, rfl, rfl⟩
  · split
    · exact ⟨rfl, rfl, rfl, rfl, rfl, rfl⟩
    · exact ⟨rfl, rfl, rfl, rfl, rfl, rfl⟩

/-! ### Claim C7 -/

/-- C7: for every attachment create and every attachment update, the call
fails with PayloadTooLarge iff the UTF-8 byte length of the content
strictly exceeds the configured ceiling; content of at most the ceiling
passes the size check, and the call then succeeds whenever the
ID-collision (for create) or existence (for update) check passes. -/
theorem attachment_size_boundary (maxBytes : Nat) (freshId : String) (now : Int)
    (db : DB) (content : String) (idOpt : Option String) (aid : String) :
    ((create_attachment maxBytes freshId now db content idOpt = .error .payloadTooLarge) ↔
       utf8Len content > maxBytes) ∧
    ((update_attachment maxBytes now db aid content = .error .payloadTooLarge) ↔
       utf8Len content > maxBytes) ∧
    (utf8Len content ≤ maxBytes → findAttachment db (idOpt.getD freshId) = none →
       create_attachment maxBytes freshId now db content idOpt =
         .ok ({ db with attachments := db.attachments ++ [⟨idOpt.getD freshId, content, now, now⟩] },
              ⟨idOpt.getD freshId, content, now, now⟩)) ∧
    (utf8Len content ≤ maxBytes → ∀ a0, findAttachment db aid = some a0 →
       update_attachment maxBytes now db aid content =
         .ok ({ db with attachments := db.attachments.map (fun x => if x.id = aid then { a0 with content := content, updatedAt := now } else x) }, { a0 with content := content, updatedAt := now })) := by
  refine ⟨?_, ?_, ?_, ?_⟩
  · by_cases hgt : utf8Len content > maxBytes
    · simp [create_attachment, validate_content_size, hgt]
    · cases hf : findAttachment db (idOpt.getD freshId) with
      | some a => simp [create_attachment, validate_content_size, hgt, hf]
      | none => simp [create_attachment, validate_content_size, hgt, hf]
  · by_cases hgt : utf8Len content > maxBytes
    · simp [update_attachment, validate_content_size, hgt]
    · cases hf : findAttachment db aid with
      | some a => simp [update_attachment, validate_content_size, hgt, hf]
      | none => simp [update_attachment, validate_content_size, hgt, hf]
  · intro hle hf
    have hgt : ¬ utf8Len content > maxBytes := by omega
    simp [create_attachment, validate_content_size, hgt, hf]
  · intro hle a0 hf
    have hgt : ¬ utf8Len content > maxBytes := by omega
    simp [update_attachment, validate_content_size, hgt, hf]

/-- Witness for C7 at a concrete ceiling of 4 bytes: 4-byte content is
accepted by create, 5-byte content is rejected with PayloadTooLarge by
create and update. -/
theorem attachment_size_boundary_witness :
    utf8Len "aaaa" ≤ 4 ∧ findAttachment ({} : DB) "f1" = none ∧
    create_attachment 4 "f1" 0 {} "aaaa" none =
      .ok (({ attachments := [⟨"f1", "aaaa", 0, 0⟩] } : DB), ⟨"f1", "aaaa", 0, 0⟩) ∧
    create_attachment 4 "f1" 0 {} "aaaaa" none = .error .payloadTooLarge ∧
    update_attachment 4 0 { attachments := [⟨"f1", "aaaa", 0, 0⟩] } "f1" "aaaaa" = .error .payloadTooLarge := by
  refine ⟨by decide, rfl, ?_, ?_, ?_⟩
  · exact (attachment_size_boundary 4 "f1" 0 {} "aaaa" none "x").2.2.1 (by decide) rfl
  · exact (attachment_size_boundary 4 "f1" 0 {} "aaaaa" none "x").1.mpr (by decide)
  · exact (attachment_size_boundary 4 "g1" 0 { attachments := [⟨"f1", "aaaa", 0, 0⟩] } "aaaaa" none "f1").2.1.mpr (by decide)

/-! ### Claim C8 -/

/-- Store with a single attachment used for the C8 evaluation. -/
def c8DB : DB := { attachments := [⟨"a1", "doc", 100, 100⟩] }

/-- C8: evaluation of `filter_attachments` at the claimed inputs.  With
`size=0` and a matching row, the pages computation divides by zero — an
internal failure (HTTP 500), not BadRequest; with `page=0` the negative
offset is clamped and the call returns 200 with the first page, again
not BadRequest. -/
theorem filter_attachments_zero_page_size :
    filter_attachments c8DB { page := 1, size := 0 } = .zeroDivision ∧
    filter_attachments c8DB { page := 0, size := 10 } =
      .ok [⟨"a1", "doc", 3, 100, 100⟩] 1 0 10 1 := by
  constructor
  · rfl
  · rfl

/-! ### Claim C2 -/

/-- An allow-everything rule for app `a1`. -/
def aclAllowAll : ACLRule := ⟨"app", "a1", "memory", none, "allow"⟩

/-- A deny-everything rule for app `a1`. -/
def aclDenyAll : ACLRule := ⟨"app", "a1", "memory", none, "deny"⟩

/-- Store whose ACL lists the allow-all rule before the deny-all rule. -/
def c2DB : DB := { acl := [aclAllowAll, aclDenyAll] }

/-- Counterexample to C2: the app's rules contain a deny rule with null
`object_id`, yet `get_accessible_memory_ids` returns the unconstrained
result (`None`) because the loop short-circuits on the allow-all rule
stored first, so every memory — here `m1` — is treated as accessible. -/
theorem acl_deny_all_not_absolute :
    aclDenyAll ∈ c2DB.acl.filter (isAppMemoryRule "a1") ∧
    aclDenyAll.effect = "deny" ∧ aclDenyAll.object_id = none ∧
    get_accessible_memory_ids c2DB "a1" = none ∧
    memoryAccessible c2DB "a1" "m1" = true := by
  refine ⟨?_, rfl, rfl, rfl, rfl⟩
  decide

/-- C2 (amended): a deny rule with null `object_id` denies access to every
memory provided no allow rule with null `object_id` precedes it among the
app's fetched rules — i.e. when the first rule with a null `object_id`
and effect allow/deny is a deny, the evaluator returns the empty set and
every memory is inaccessible. -/
theorem acl_first_global_deny_denies_all (db : DB) (appId : String) (d : ACLRule)
    (h : firstGlobalRule (db.acl.filter (isAppMemoryRule appId)) = some d)
    (hd : d.effect = "deny") :
    get_accessible_memory_ids db appId = some [] ∧
    ∀ mid, memoryAccessible db appId mid = false := by
  have hloop : ∀ (rs : List ACLRule), firstGlobalRule rs = some d →
      ∀ allowed denied, aclLoop rs allowed denied = some [] := by
    intro rs
    induction rs with
    | nil => intro h; simp [firstGlobalRule] at h
    | cons r rest ih =>
      intro hfind allowed denied
      by_cases hp : ((!pyTruthyStr r.object_id) = true ∧ (r.effect = "allow" ∨ r.effect = "deny"))
      · have hdr : d = r := by
          unfold firstGlobalRule at hfind
          rw [List.find?_cons, decide_eq_true hp] at hfind
          simpa using hfind.symm
        obtain ⟨hobj, heff⟩ := hp
        have heffd : r.effect = "deny" := by
          cases heff with
          | inl ha =>
            exfalso
            rw [hdr] at hd
            rw [ha] at hd
            exact absurd hd (by decide)
          | inr hb => exact hb
        have hna : ¬ (r.effect = "allow") := by
          rw [heffd]; decide
        unfold aclLoop
        rw [if_neg hna, if_pos heffd]
        simp only [Bool.not_eq_true'] at hobj
        rw [hobj]
        simp
      · have hfind' : firstGlobalRule rest = some d := by
          unfold firstGlobalRule at hfind ⊢
          rwa [List.find?_cons, decide_eq_false hp] at hfind
        unfold aclLoop
        by_cases ha : r.effect = "allow"
        · rw [if_pos ha]
          have hobj : pyTruthyStr r.object_id = true := by
            by_contra hno
            exact hp (by simp [Bool.not_eq_true] at hno; simp [hno, ha])
          rw [if_pos hobj]
          exact ih hfind' _ _
        · rw [if_neg ha]
          by_cases hden : r.effect = "deny"
          · rw [if_pos hden]
            have hobj : pyTruthyStr r.object_id = true := by
              by_contra hno
              exact hp (by simp [Bool.not_eq_true] at hno; simp [hno, hden])
            rw [if_pos hobj]
            exact ih hfind' _ _
          · rw [if_neg hden]
            exact ih hfind' _ _
  have hne : db.acl.filter (isAppMemoryRule appId) ≠ [] := by
    intro hnil
    rw [hnil] at h
    simp [firstGlobalRule] at h
  constructor
  · unfold get_accessible_memory_ids
    rw [if_neg hne]
    exact hloop _ h [] []
  · intro mid
    unfold memoryAccessible get_accessible_memory_ids
    rw [if_neg hne, hloop _ h [] []]
    simp

/-- Store for the C2 witness: a specific allow, a specific deny, then the
deny-all rule; no allow-all precedes the deny-all. -/
def c2wDB : DB :=
  { acl := [⟨"app", "a1", "memory", some "m3", "allow"⟩,
            ⟨"app", "a1", "memory", some "m4", "deny"⟩,
            aclDenyAll] }

/-- Witness for the amended C2 at a concrete rule list. -/
theorem acl_first_global_deny_denies_all_witness :
    firstGlobalRule (c2wDB.acl.filter (isAppMemoryRule "a1")) = some aclDenyAll ∧
    aclDenyAll.effect = "deny" ∧
    get_accessible_memory_ids c2wDB "a1" = some [] ∧
    memoryAccessible c2wDB "a1" "m3" = false := by
  refine ⟨by decide, rfl, ?_, ?_⟩
  · exact (acl_first_global_deny_denies_all c2wDB "a1" aclDenyAll (by decide) rfl).1
  · exact (acl_first_global_deny_denies_all c2wDB "a1" aclDenyAll (by decide) rfl).2 "m3"

/-! ### Claim C10 -/

/-- C10: a REST `PUT /api/v1/memories/:id` call on an existing memory
by an existing user replaces only the content column: the row keeps its
id, state, metadata, app and owner; every other row is untouched; no
history row and no access-log row is written; and no memory-client
(vector store) call is made. -/
theorem update_memory_content_only (db : DB) (mid c uidStr : String)
    (u : UserRow) (m : Mem)
    (hu : findUser db uidStr = some u) (hm : findMemory db mid = some m) :
    update_memory db mid c uidStr =
      .ok (replaceMem db { m with content := c }) [] { m with content := c } ∧
    (replaceMem db { m with content := c }).users = db.users ∧
    (replaceMem db { m with content := c }).apps = db.apps ∧
    (replaceMem db { m with content := c }).attachments = db.attachments ∧
    (replaceMem db { m with content := c }).history = db.history ∧
    (replaceMem db { m with content := c }).accessLogs = db.accessLogs ∧
    (replaceMem db { m with content := c }).acl = db.acl ∧
    findMemory (replaceMem db { m with content := c }) mid = some { m with content := c } ∧
    (∀ y, y ≠ mid → findMemory (replaceMem db { m with content := c }) y = findMemory db y) := by
  have hid : m.id = mid := findMemory_id_eq db mid m hm
  refine ⟨?_, rfl, rfl, rfl, rfl, rfl, rfl, ?_, ?_⟩
  · unfold update_memory
    rw [hu, hm]
  · have h2 := findMemory_replaceMem_self db m { m with content := c }
      (by show findMemory db m.id = some m; rw [hid]; exact hm)
    show findMemory (replaceMem db { m with content := c }) mid = _
    rw [← hid]
    exact h2
  · intro y hy
    exact findMemory_replaceMem_ne db { m with content := c } y
      (by show y ≠ m.id; rw [hid]; exact hy)

/-- Store for the C10 witness: one user, one app, one memory with
metadata, one history row already present. -/
def c10DB : DB :=
  { users := [⟨"U1", "alice"⟩],
    apps := [⟨"A1", "openmemory", "U1", true⟩],
    memories := [⟨"m1", "U1", "A1", "old text", [("attachment_ids", MVal.list ["a1"])], .active, none, none⟩],
    history := [⟨"m1", "U1", .deleted, .active⟩] }

/-- Witness for C10 at a concrete store. -/
theorem update_memory_content_only_witness :
    findUser c10DB "alice" = some ⟨"U1", "alice"⟩ ∧
    findMemory c10DB "m1" = some ⟨"m1", "U1", "A1", "old text", [("attachment_ids", MVal.list ["a1"])], .active, none, none⟩ ∧
    update_memory c10DB "m1" "new text" "alice" =
      .ok (replaceMem c10DB ⟨"m1", "U1", "A1", "new text", [("attachment_ids", MVal.list ["a1"])], .active, none, none⟩)
        [] ⟨"m1", "U1", "A1", "new text", [("attachment_ids", MVal.list ["a1"])], .active, none, none⟩ ∧
    (replaceMem c10DB ⟨"m1", "U1", "A1", "new text", [("attachment_ids", MVal.list ["a1"])], .active, none, none⟩).history = c10DB.history := by
  refine ⟨rfl, rfl, ?_, ?_⟩
  · exact (update_memory_content_only c10DB "m1" "new text" "alice" ⟨"U1", "alice"⟩
      ⟨"m1", "U1", "A1", "old text", [("attachment_ids", MVal.list ["a1"])], .active, none, none⟩ rfl rfl).1
  · exact (update_memory_content_only c10DB "m1" "new text" "alice" ⟨"U1", "alice"⟩
      ⟨"m1", "U1", "A1", "old text", [("attachment_ids", MVal.list ["a1"])], .active, none, none⟩ rfl rfl).2.2.2.2.1

/-! ### Claim C1 -/

/-- C1: every `create_memory` call that resolves `infer` to false and
succeeds stores the caller's text verbatim in a new metadata row, appends
exactly one `deleted→active` history row for it, makes no memory-client
call at all (no LLM call, no vector-store write), and returns the created
memory. -/
theorem create_memory_fast_path (cfg : Config) (freshAppId freshMemId freshAttId : String)
    (now : Int) (oracle : Oracle) (db : DB) (req : CreateMemoryRequest)
    (u : UserRow) (db' : DB) (fx : List Effect) (m : Mem)
    (hu : findUser db req.user_id = some u)
    (hinf : resolvedInfer cfg req = false)
    (hok : create_memory cfg freshAppId freshMemId freshAttId now oracle db req =
             .ok db' fx (.created m)) :
    m.content = req.text ∧ fx = [] ∧
    db'.memories = db.memories ++ [m] ∧
    db'.history = db.history ++ [⟨m.id, u.id, .deleted, .active⟩] := by
  unfold resolvedInfer at hinf
  unfold create_memory at hok
  rw [hu] at hok
  dsimp only at hok
  cases happ : db.apps.find? (fun a => a.name = req.app ∧ a.ownerId = u.id) with
  | some a =>
    rw [happ] at hok
    by_cases hact : a.isActive
    · by_cases hca : cfg.clientAvailable
      · simp only [hact, hca, Bool.not_true, Bool.false_eq_true, if_false, hinf] at hok
        cases hatt : handle_attachment freshAttId now db req.attachment_text req.attachment_id req.metadata none with
        | error e => rw [hatt] at hok; simp at hok
        | ok p =>
          obtain ⟨db2, md⟩ := p
          rw [hatt] at hok
          simp only [Bool.not_false, if_true, RestResult.ok.injEq, CreateOutcome.created.injEq] at hok
          obtain ⟨hdb', hfx, hmem⟩ := hok
          have hframe := handle_attachment_frame freshAttId now db req.attachment_text req.attachment_id req.metadata none db2 md hatt
          subst hdb' hfx hmem
          refine ⟨rfl, rfl, ?_, ?_⟩
          · show db2.memories ++ [_] = db.memories ++ [_]
            rw [hframe.2.2.1]
          · show db2.history ++ [_] = db.history ++ [_]
            rw [hframe.2.2.2.1]
      · simp only [hca, Bool.not_false, if_true, hact, Bool.not_true, Bool.false_eq_true, if_false] at hok
        simp at hok
    · simp only [Bool.not_eq_true] at hact
      simp only [hact, Bool.not_false, if_true] at hok
      simp at hok
  | none =>
    rw [happ] at hok
    by_cases hca : cfg.clientAvailable
    · simp only [hca, Bool.not_true, Bool.not_false, Bool.false_eq_true, if_false, if_true, hinf] at hok
      cases hatt : handle_attachment freshAttId now { db with apps := db.apps ++ [⟨freshAppId, req.app, u.id, true⟩] } req.attachment_text req.attachment_id req.metadata none with
      | error e => rw [hatt] at hok; simp at hok
      | ok p =>
        obtain ⟨db2, md⟩ := p
        rw [hatt] at hok
        simp only [Bool.not_false, if_true, RestResult.ok.injEq, CreateOutcome.created.injEq] at hok
        obtain ⟨hdb', hfx, hmem⟩ := hok
        have hframe := handle_attachment_frame freshAttId now
          { db with apps := db.apps ++ [⟨freshAppId, req.app, u.id, true⟩] }
          req.attachment_text req.attachment_id req.metadata none db2 md hatt
        subst hdb' hfx hmem
        refine ⟨rfl, rfl, ?_, ?_⟩
        · show db2.memories ++ [_] = db.memories ++ [_]
          rw [hframe.2.2.1]
        · show db2.history ++ [_] = db.history ++ [_]
          rw [hframe.2.2.2.1]
    · simp only [hca, Bool.not_false, if_true] at hok
      simp at hok

/-- Store, request and oracle for the C1 witness. -/
def c1DB : DB :=
  { users := [⟨"U1", "alice"⟩], apps := [⟨"A1", "openmemory", "U1", true⟩] }

/-- Request of the C1 witness: `infer=false`, verbatim text. -/
def c1req : CreateMemoryRequest := { user_id := "alice", text := "Freddy likes hiking", infer := some false }

/-- Oracle of the C1 witness (never consulted on the fast path). -/
def c1oracle : Oracle := { get := fun _ => .raised }

/-- Witness for C1 at a concrete store. -/
theorem create_memory_fast_path_witness :
    findUser c1DB "alice" = some ⟨"U1", "alice"⟩ ∧
    resolvedInfer {} c1req = false ∧
    (∃ db' fx m, create_memory {} "AF" "M1" "AT" 0 c1oracle c1DB c1req = .ok db' fx (.created m) ∧
       m.content = "Freddy likes hiking" ∧ fx = [] ∧
       db'.memories = c1DB.memories ++ [m] ∧
       db'.history = c1DB.history ++ [⟨m.id, "U1", .deleted, .active⟩]) := by
  refine ⟨rfl, rfl, ?_⟩
  have hok : create_memory {} "AF" "M1" "AT" 0 c1oracle c1DB c1req =
      .ok { c1DB with memories := [⟨"M1", "U1", "A1", "Freddy likes hiking", [], .active, none, none⟩],
                      history := [⟨"M1", "U1", .deleted, .active⟩] }
        [] (.created ⟨"M1", "U1", "A1", "Freddy likes hiking", [], .active, none, none⟩) := by rfl
  have h := create_memory_fast_path {} "AF" "M1" "AT" 0 c1oracle c1DB c1req
    ⟨"U1", "alice"⟩ _ _ _ rfl rfl hok
  exact ⟨_, _, _, hok, h.1, h.2.1, h.2.2.1, h.2.2.2⟩

/-! ### Claim C4 -/

/-- The metadata produced by the UPDATE branch's vector-store re-read:
the `attachment_ids` found in the payload replace the entry in the
threaded metadata; any other outcome keeps it. -/
def metaAfterGet (get : String → GetResult) (evId : String) (meta : Metadata) : Metadata :=
  match get evId with
  | .payload (some vmd) =>
    match mget vmd "attachment_ids" with
    | some v => mset meta "attachment_ids" v
    | none => meta
  | _ => meta

/-- C4: for every UPDATE event whose target memory exists in the metadata
store, the event step re-reads the vector-store payload for that ID
(exactly one `get` effect), writes the `attachment_ids` found in the
re-read payload into the row's metadata — keeping the pre-call metadata
when the re-read raises or returns no usable payload — replaces the
row's content with the event's text, and appends one `active→active`
history row. -/
theorem create_memory_update_event (get : String → GetResult) (userId appId : String)
    (db : DB) (meta : Metadata) (created : List Mem) (fx : List Effect)
    (evId evText : String) (m : Mem) (st' : IngestState)
    (hm : findMemory db evId = some m)
    (hst : create_memory_apply_result get userId appId ⟨db, meta, created, fx⟩
             ⟨.UPDATE, evId, evText⟩ = st') :
    ∃ meta',
      st'.meta = meta' ∧
      (∀ vmd, get evId = .payload (some vmd) →
         (∀ v, mget vmd "attachment_ids" = some v → meta' = mset meta "attachment_ids" v) ∧
         (mget vmd "attachment_ids" = none → meta' = meta)) ∧
      (get evId = .raised → meta' = meta) ∧
      (get evId = .noneResult → meta' = meta) ∧
      st'.fx = fx ++ [.clientGet evId] ∧
      findMemory st'.db evId = some { m with content := evText, metadata := meta' } ∧
      st'.db.history = db.history ++ [⟨evId, userId, .active, .active⟩] ∧
      st'.created = created ++ [{ m with content := evText, metadata := meta' }] ∧
      st'.db.users = db.users ∧ st'.db.apps = db.apps ∧
      st'.db.attachments = db.attachments ∧ st'.db.accessLogs = db.accessLogs := by
  subst hst
  have hid : m.id = evId := findMemory_id_eq db evId m hm
  have hform : create_memory_apply_result get userId appId ⟨db, meta, created, fx⟩
      ⟨.UPDATE, evId, evText⟩ =
      ⟨{ replaceMem db { m with content := evText, metadata := metaAfterGet get evId meta } with
         history := db.history ++ [⟨evId, userId, .active, .active⟩] },
       metaAfterGet get evId meta,
       created ++ [{ m with content := evText, metadata := metaAfterGet get evId meta }],
       fx ++ [.clientGet evId]⟩ := by
    unfold create_memory_apply_result metaAfterGet
    rw [hm]
    rfl
  rw [hform]
  refine ⟨metaAfterGet get evId meta, rfl, ?_, ?_, ?_, rfl, ?_, rfl, rfl, rfl, rfl, rfl, rfl⟩
  · intro vmd hget
    constructor
    · intro v hv
      simp only [metaAfterGet, hget, hv]
    · intro hnone
      simp only [metaAfterGet, hget, hnone]
  · intro hraised
    simp only [metaAfterGet, hraised]
  · intro hnoneres
    simp only [metaAfterGet, hnoneres]
  · rw [← hid]
    exact findMemory_replaceMem_self db m
      { m with content := evText, metadata := metaAfterGet get m.id meta }
      (by show findMemory db m.id = some m; rw [hid]; exact hm)

/-- Target row for the C4 witness. -/
def c4mem : Mem :=
  ⟨"m1", "U1", "A1", "Lives in Berlin", [("attachment_ids", MVal.list ["a1"])], .active, none, none⟩

/-- Store for the C4 witness. -/
def c4DB : DB := { users := [⟨"U1", "alice"⟩], memories := [c4mem] }

/-- Pre-call metadata for the C4 witness. -/
def c4meta : Metadata := [("source_app", MVal.str "openmemory"), ("attachment_ids", MVal.list ["a1"])]

/-- Vector-store re-read for the C4 witness: the payload carries the
LLM-merged attachment list. -/
def c4get : String → GetResult :=
  fun _ => .payload (some [("attachment_ids", MVal.list ["a1", "b2"])])

/-- Event-step output for the C4 witness. -/
def c4st : IngestState :=
  create_memory_apply_result c4get "U1" "A1" ⟨c4DB, c4meta, [], []⟩
    ⟨.UPDATE, "m1", "Lives in Berlin with Freddy"⟩

/-- Witness for C4 at a concrete UPDATE event. -/
theorem create_memory_update_event_witness :
    findMemory c4DB "m1" = some c4mem ∧
    (∃ meta',
      c4st.meta = meta' ∧
      (∀ vmd, c4get "m1" = .payload (some vmd) →
         (∀ v, mget vmd "attachment_ids" = some v → meta' = mset c4meta "attachment_ids" v) ∧
         (mget vmd "attachment_ids" = none → meta' = c4meta)) ∧
      (c4get "m1" = .raised → meta' = c4meta) ∧
      (c4get "m1" = .noneResult → meta' = c4meta) ∧
      c4st.fx = [] ++ [.clientGet "m1"] ∧
      findMemory c4st.db "m1" = some { c4mem with content := "Lives in Berlin with Freddy", metadata := meta' } ∧
      c4st.db.history = c4DB.history ++ [⟨"m1", "U1", .active, .active⟩] ∧
      c4st.created = [] ++ [{ c4mem with content := "Lives in Berlin with Freddy", metadata := meta' }] ∧
      c4st.db.users = c4DB.users ∧ c4st.db.apps = c4DB.apps ∧
      c4st.db.attachments = c4DB.attachments ∧ c4st.db.accessLogs = c4DB.accessLogs) :=
  ⟨rfl, create_memory_update_event c4get "U1" "A1" c4DB c4meta [] [] "m1"
     "Lives in Berlin with Freddy" c4mem c4st rfl rfl⟩

/-! ### Claim C6 -/

theorem mget_mset_self (m : Metadata) (k : String) (v : MVal) :
    mget (mset m k v) k = some v := by
  induction m with
  | nil => simp [mget, mset, List.find?]
  | cons p rest ih =>
    obtain ⟨k', v'⟩ := p
    by_cases hk : k' = k
    · simp [mset, hk, mget, List.find?_cons]
    · simp only [mset, if_neg hk]
      simp only [mget, List.find?_cons]
      simp only [decide_eq_false hk]
      exact ih

theorem handle_attachment_step_ids (freshAttId : String) (now : Int) (db : DB)
    (atext aid : Option String) (newIds : List String) (db' : DB) (ids : List String)
    (h : handle_attachment_step freshAttId now db atext aid newIds = .ok (db', ids)) :
    (pyTruthyStr atext = true →
       ids = (if aid.getD freshAttId ∈ newIds then newIds else newIds ++ [aid.getD freshAttId])) ∧
    (pyTruthyStr atext = false → ∀ a, aid = some a →
       ids = (if a ∈ newIds then newIds else newIds ++ [a])) ∧
    (pyTruthyStr atext = false → aid = none → db' = db ∧ ids = newIds) := by
  unfold handle_attachment_step at h
  by_cases ht : pyTruthyStr atext = true
  · rw [if_pos ht] at h
    refine ⟨fun _ => ?_, fun hf _ _ => absurd ht (by rw [hf]; decide), fun hf _ => absurd ht (by rw [hf]; decide)⟩
    cases hf : findAttachment db (aid.getD freshAttId) with
    | some a => rw [hf] at h; simp at h
    | none =>
      rw [hf] at h
      simp only [Except.ok.injEq, Prod.mk.injEq] at h
      exact h.2.symm
  · have ht' : pyTruthyStr atext = false := by
      cases hx : pyTruthyStr atext
      · rfl
      · exact absurd hx ht
    rw [ht'] at h
    simp only [Bool.false_eq_true, if_false] at h
    refine ⟨fun hc => absurd hc (by rw [ht']; decide), ?_, ?_⟩
    · intro _ a ha
      rw [ha] at h
      dsimp only at h
      cases hf : findAttachment db a with
      | none => rw [hf] at h; simp at h
      | some a0 =>
        rw [hf] at h
        simp only [Except.ok.injEq, Prod.mk.injEq] at h
        exact h.2.symm
    · intro _ ha
      rw [ha] at h
      dsimp only at h
      simp only [Except.ok.injEq, Prod.mk.injEq] at h
      exact ⟨h.1.symm, h.2.symm⟩

/-- Oracle for the C6 counterexample (never consulted on the fast path). -/
def c6oracle : Oracle := { get := fun _ => .raised }

/-- Store for the C6 counterexample. -/
def c6DB : DB :=
  { users := [⟨"U1", "alice"⟩], apps := [⟨"A1", "openmemory", "U1", true⟩] }

/-- Fast-path request whose caller metadata carries a duplicated
`attachment_ids` list and no attachment argument. -/
def c6req : CreateMemoryRequest :=
  { user_id := "alice", text := "hi", metadata := [("attachment_ids", MVal.list ["a1", "a1"])],
    infer := some false }

/-- Fast-path request whose caller metadata carries a scalar
`attachment_ids` and no attachment argument. -/
def c6reqScalar : CreateMemoryRequest :=
  { user_id := "alice", text := "ho", metadata := [("attachment_ids", MVal.str "a1")],
    infer := some false }

/-- Row stored for `c6req`. -/
def c6mem : Mem :=
  ⟨"M1", "U1", "A1", "hi", [("attachment_ids", MVal.list ["a1", "a1"])], .active, none, none⟩

/-- Row stored for `c6reqScalar`. -/
def c6memScalar : Mem :=
  ⟨"M1", "U1", "A1", "ho", [("attachment_ids", MVal.str "a1")], .active, none, none⟩

/-- Counterexample to C6: an add call that carries no attachment argument
stores caller-supplied `attachment_ids` verbatim — here a list with a
duplicate, and in the second call a scalar string — so the stored entry
is neither deduplicated nor always a list. -/
theorem attachment_ids_stored_verbatim :
    create_memory {} "AF" "M1" "AT" 0 c6oracle c6DB c6req =
      .ok { c6DB with memories := [c6mem], history := [⟨"M1", "U1", .deleted, .active⟩] }
        [] (.created c6mem) ∧
    mget c6mem.metadata "attachment_ids" = some (.list ["a1", "a1"]) ∧
    ¬ (["a1", "a1"] : List String).Nodup ∧
    create_memory {} "AF" "M1" "AT" 0 c6oracle c6DB c6reqScalar =
      .ok { c6DB with memories := [c6memScalar], history := [⟨"M1", "U1", .deleted, .active⟩] }
        [] (.created c6memScalar) ∧
    mget c6memScalar.metadata "attachment_ids" = some (.str "a1") := by
  exact ⟨rfl, rfl, by decide, rfl, rfl⟩

/-- C6 (amended): the `attachment_ids` entry assembled by the attachment
intake — i.e. whenever the call carries `attachment_text` or
`attachment_id` — is a list (never a scalar) of distinct elements in
first-seen order, the intake appending the created or verified UUID only
when it is not already listed; without an attachment argument the REST
intake returns the caller metadata verbatim (C6's universal reading
fails there, see the counterexample). -/
theorem attachment_ids_intake_dedup (freshAttId : String) (now : Int) (db : DB)
    (atext aid : Option String) (meta : Metadata) (exist : Option (List String))
    (db' : DB) (meta' : Metadata) :
    (handle_attachment freshAttId now db atext aid meta exist = .ok (db', meta') →
       (exist.getD []).Nodup →
       (pyTruthyStr atext = true ∨ (pyTruthyStr atext = false ∧ aid.isSome)) →
       ∃ theId, mget meta' "attachment_ids" =
           some (.list (if theId ∈ exist.getD [] then exist.getD []
                        else exist.getD [] ++ [theId])) ∧
         (if theId ∈ exist.getD [] then exist.getD []
          else exist.getD [] ++ [theId]).Nodup) ∧
    (pyTruthyStr atext = false → aid = none → exist = none →
       handle_attachment freshAttId now db atext aid meta exist = .ok (db, meta)) ∧
    (∀ db2 meta2, mcp_attachment_intake freshAttId now db atext aid meta = .ok (db2, meta2) →
       (pyTruthyStr atext = true ∨ (pyTruthyStr atext = false ∧ pyTruthyStr aid = true)) →
       ∃ theId, mget meta2 "attachment_ids" = some (.list [theId])) := by
  refine ⟨?_, ?_, ?_⟩
  · intro h hnd harg
    unfold handle_attachment at h
    cases hstep : handle_attachment_step freshAttId now db atext aid (exist.getD []) with
    | error e => rw [hstep] at h; simp at h
    | ok p =>
      obtain ⟨dbs, ids⟩ := p
      rw [hstep] at h
      simp only [Except.ok.injEq, Prod.mk.injEq] at h
      obtain ⟨-, hmeta⟩ := h
      have hids := handle_attachment_step_ids freshAttId now db atext aid (exist.getD []) dbs ids hstep
      cases harg with
      | inl htr =>
        refine ⟨aid.getD freshAttId, ?_, ?_⟩
        · have hid2 := hids.1 htr
          have hne : ids ≠ [] := by
            rw [hid2]
            split
            · exact List.ne_nil_of_mem (by assumption)
            · simp
          rw [if_pos hne] at hmeta
          rw [← hmeta, ← hid2]
          exact mget_mset_self meta "attachment_ids" (.list ids)
        · split
          · exact hnd
          · next hnotmem =>
            rw [List.nodup_append]
            exact ⟨hnd, List.nodup_singleton _, by simpa using hnotmem⟩
      | inr hpair =>
        obtain ⟨hfa, hsome⟩ := hpair
        obtain ⟨a, ha⟩ := Option.isSome_iff_exists.mp hsome
        refine ⟨a, ?_, ?_⟩
        · have hid2 := hids.2.1 hfa a ha
          have hne : ids ≠ [] := by
            rw [hid2]
            split
            · exact List.ne_nil_of_mem (by assumption)
            · simp
          rw [if_pos hne] at hmeta
          rw [← hmeta, ← hid2]
          exact mget_mset_self meta "attachment_ids" (.list ids)
        · split
          · exact hnd
          · next hnotmem =>
            rw [List.nodup_append]
            exact ⟨hnd, List.nodup_singleton _, by simpa using hnotmem⟩
  · intro hfa ha he
    subst ha he
    unfold handle_attachment handle_attachment_step
    rw [hfa]
    rfl
  · intro db2 meta2 h harg
    unfold mcp_attachment_intake at h
    dsimp only at h
    by_cases ht : pyTruthyStr atext = true
    · rw [if_pos ht] at h
      cases hf : findAttachment db (aid.getD freshAttId) with
      | some a => rw [hf] at h; simp at h
      | none =>
        rw [hf] at h
        simp only [Except.ok.injEq, Prod.mk.injEq] at h
        obtain ⟨-, hmeta⟩ := h
        refine ⟨aid.getD freshAttId, ?_⟩
        rw [← hmeta]
        simp only [ne_eq, reduceCtorEq, not_false_eq_true, if_true]
        exact mget_mset_self meta "attachment_ids" (.list [aid.getD freshAttId])
    · have ht' : pyTruthyStr atext = false := by
        cases hx : pyTruthyStr atext
        · rfl
        · exact absurd hx ht
      rw [ht'] at h
      simp only [Bool.false_eq_true, if_false] at h
      cases harg with
      | inl hc => exact absurd hc ht
      | inr hpair =>
        obtain ⟨-, htr⟩ := hpair
        rw [if_pos htr] at h
        cases hf : findAttachment db (aid.getD "") with
        | none => rw [hf] at h; simp at h
        | some a0 =>
          rw [hf] at h
          simp only [Except.ok.injEq, Prod.mk.injEq] at h
          obtain ⟨-, hmeta⟩ := h
          refine ⟨aid.getD "", ?_⟩
          rw [← hmeta]
          simp only [ne_eq, reduceCtorEq, not_false_eq_true, if_true]
          exact mget_mset_self meta "attachment_ids" (.list [aid.getD ""])

/-- Witness for the amended C6: a call carrying `attachment_text` stores a
fresh singleton deduplicated list. -/
theorem attachment_ids_intake_dedup_witness :
    handle_attachment "AT" 0 ({} : DB) (some "doc body") none [] none =
      .ok ({ attachments := [⟨"AT", "doc body", 0, 0⟩] }, [("attachment_ids", MVal.list ["AT"])]) ∧
    (∃ theId, mget [("attachment_ids", MVal.list ["AT"])] "attachment_ids" =
        some (.list (if theId ∈ (none : Option (List String)).getD [] then (none : Option (List String)).getD []
                     else (none : Option (List String)).getD [] ++ [theId])) ∧
      (if theId ∈ (none : Option (List String)).getD [] then (none : Option (List String)).getD []
       else (none : Option (List String)).getD [] ++ [theId]).Nodup) := by
  refine ⟨rfl, ?_⟩
  exact (attachment_ids_intake_dedup "AT" 0 {} (some "doc body") none [] none
    { attachments := [⟨"AT", "doc body", 0, 0⟩] } [("attachment_ids", MVal.list ["AT"])]).1
    rfl (by decide) (Or.inl (by decide))

theorem foldl_deleteAttachments_frame (ids : List String) (db : DB) :
    (ids.foldl deleteAttachmentsForMemory db).users = db.users ∧
    (ids.foldl deleteAttachmentsForMemory db).apps = db.apps ∧
    (ids.foldl deleteAttachmentsForMemory db).memories = db.memories ∧
    (ids.foldl deleteAttachmentsForMemory db).history = db.history ∧
    (ids.foldl deleteAttachmentsForMemory db).accessLogs = db.accessLogs ∧
    (ids.foldl deleteAttachmentsForMemory db).acl = db.acl := by
  induction ids generalizing db with
  | nil => exact ⟨rfl, rfl, rfl, rfl, rfl, rfl⟩
  | cons a t ih =>
    have h1 := deleteAttachmentsForMemory_frame db a
    have h2 := ih (deleteAttachmentsForMemory db a)
    simp only [List.foldl_cons]
    exact ⟨h2.1.trans h1.1, h2.2.1.trans h1.2.1, h2.2.2.1.trans h1.2.2.1,
           h2.2.2.2.1.trans h1.2.2.2.1, h2.2.2.2.2.1.trans h1.2.2.2.2.1,
           h2.2.2.2.2.2.trans h1.2.2.2.2.2⟩

/-! ### Claim C9 -/

theorem delete_memories_loop_ok (now : Int) (byUser : String) :
    ∀ (ids : List String) (p c : DB) (fx : List Effect),
    p.memories = c.memories → p.history = c.history →
    (∀ mid ∈ ids, (findMemory c mid).isSome = true) →
    ∃ db', delete_memories_loop now byUser ids p c fx =
        .ok db' (fx ++ ids.map Effect.clientDelete) () ∧
      (∃ t, db'.history = c.history ++ t) ∧
      (∀ mid ∈ ids, ∃ m m', findMemory c mid = some m ∧ findMemory db' mid = some m' ∧
         m'.state = MemoryState.deleted ∧ m'.ownerId = m.ownerId) ∧
      (∀ mid ∈ ids, ∃ old, (⟨mid, byUser, old, MemoryState.deleted⟩ : HistoryRow) ∈ db'.history) ∧
      (∀ y, y ∉ ids → findMemory db' y = findMemory c y) := by
  intro ids
  induction ids with
  | nil =>
    intro p c fx hmem hhist h
    exact ⟨c, by simp [delete_memories_loop], ⟨[], by simp⟩, by simp, by simp, fun y _ => rfl⟩
  | cons mid rest ih =>
    intro p c fx hmem hhist h
    have hpc : ∀ y, findMemory p y = findMemory c y :=
      findMemory_eq_of_memories_eq p c hmem
    have hsome : (findMemory c mid).isSome = true := h mid (by simp)
    obtain ⟨m, hm⟩ := Option.isSome_iff_exists.mp hsome
    have hmp : findMemory p mid = some m := by rw [hpc]; exact hm
    have hid : m.id = mid := findMemory_id_eq p mid m hmp
    have hrun := update_memory_state_run now p mid MemoryState.deleted byUser m hmp
    have hrow : ∀ y,
        (y = mid ∧
          findMemory { replaceMem p (stateUpdatedMem now m MemoryState.deleted) with
              history := p.history ++ [⟨mid, byUser, m.state, MemoryState.deleted⟩] } y =
            some (stateUpdatedMem now m MemoryState.deleted) ∧
          findMemory c y = some m) ∨
        (y ≠ mid ∧
          findMemory { replaceMem p (stateUpdatedMem now m MemoryState.deleted) with
              history := p.history ++ [⟨mid, byUser, m.state, MemoryState.deleted⟩] } y =
            findMemory c y) := by
      intro y
      by_cases hy : y = mid
      · subst hy
        left
        refine ⟨rfl, ?_, hm⟩
        have h2 := findMemory_replaceMem_self p m (stateUpdatedMem now m MemoryState.deleted)
          (by show findMemory p m.id = some m; rw [hid]; exact hmp)
        rw [← hid]
        exact h2
      · right
        refine ⟨hy, ?_⟩
        have h2 := findMemory_replaceMem_ne p (stateUpdatedMem now m MemoryState.deleted) y
          (by show y ≠ m.id; rw [hid]; exact hy)
        calc findMemory { replaceMem p (stateUpdatedMem now m MemoryState.deleted) with
                history := p.history ++ [⟨mid, byUser, m.state, MemoryState.deleted⟩] } y
            = findMemory (replaceMem p (stateUpdatedMem now m MemoryState.deleted)) y := rfl
          _ = findMemory p y := h2
          _ = findMemory c y := hpc y
    have hnext : ∀ mid' ∈ rest,
        (findMemory { replaceMem p (stateUpdatedMem now m MemoryState.deleted) with
            history := p.history ++ [⟨mid, byUser, m.state, MemoryState.deleted⟩] } mid').isSome = true := by
      intro mid' hmem'
      cases hrow mid' with
      | inl hcase => rw [hcase.2.1]; rfl
      | inr hcase => rw [hcase.2]; exact h mid' (by simp [hmem'])
    obtain ⟨db', hloop, ⟨t, hdbh⟩, hdel, hhistrow, hframe⟩ :=
      ih { replaceMem p (stateUpdatedMem now m MemoryState.deleted) with
           history := p.history ++ [⟨mid, byUser, m.state, MemoryState.deleted⟩] }
         { replaceMem p (stateUpdatedMem now m MemoryState.deleted) with
           history := p.history ++ [⟨mid, byUser, m.state, MemoryState.deleted⟩] }
         (fx ++ [.clientDelete mid]) rfl rfl hnext
    refine ⟨db', ?_, ?_, ?_, ?_, ?_⟩
    · show delete_memories_loop now byUser (mid :: rest) p c fx = _
      unfold delete_memories_loop
      rw [hrun]
      dsimp only
      rw [hloop]
      simp
    · refine ⟨[⟨mid, byUser, m.state, MemoryState.deleted⟩] ++ t, ?_⟩
      rw [hdbh]
      show p.history ++ [⟨mid, byUser, m.state, MemoryState.deleted⟩] ++ t = _
      rw [hhist, List.append_assoc]
    · intro mid' hmem'
      rcases List.mem_cons.mp hmem' with hcase | hcase
      · subst hcase
        by_cases hrest : mid' ∈ rest
        · obtain ⟨m0, m0', hc0, hd0, hst0, how0⟩ := hdel mid' hrest
          cases hrow mid' with
          | inl hx =>
            refine ⟨m, m0', hx.2.2, hd0, hst0, ?_⟩
            rw [how0]
            rw [hx.2.1] at hc0
            have : m0 = stateUpdatedMem now m MemoryState.deleted := by
              injection hc0.symm
            rw [this]
            rfl
          | inr hx => exact absurd rfl hx.1
        · cases hrow mid' with
          | inl hx =>
            refine ⟨m, stateUpdatedMem now m MemoryState.deleted, hx.2.2, ?_, rfl, rfl⟩
            rw [hframe mid' hrest]
            exact hx.2.1
          | inr hx => exact absurd rfl hx.1
      · obtain ⟨m0, m0', hc0, hd0, hst0, how0⟩ := hdel mid' hcase
        cases hrow mid' with
        | inl hx =>
          refine ⟨m, m0', hx.2.2, hd0, hst0, ?_⟩
          rw [how0]
          rw [hx.2.1] at hc0
          have : m0 = stateUpdatedMem now m MemoryState.deleted := by
            injection hc0.symm
          rw [this]
          rfl
        | inr hx =>
          rw [hx.2] at hc0
          exact ⟨m0, m0', hc0, hd0, hst0, how0⟩
    · intro mid' hmem'
      rcases List.mem_cons.mp hmem' with hcase | hcase
      · subst hcase
        refine ⟨m.state, ?_⟩
        rw [hdbh]
        apply List.mem_append_left
        show _ ∈ p.history ++ [⟨mid', byUser, m.state, MemoryState.deleted⟩]
        exact List.mem_append_right _ (by simp)
      · exact hhistrow mid' hcase
    · intro y hy
      have hy1 : y ≠ mid := fun hc => hy (hc ▸ List.mem_cons_self _ _)
      have hy2 : y ∉ rest := fun hc => hy (List.mem_cons_of_mem _ hc)
      rw [hframe y hy2]
      cases hrow y with
      | inl hx => exact absurd hx.1 hy1
      | inr hx => exact hx.2

/-- C9 (amended): a REST `delete_memories` request by an existing user
whose listed IDs all resolve transitions every listed memory to
`deleted` with a history row, with no ownership or access check — the
theorem imposes no relation between the memories' owners and the
requesting user, and ownership is preserved.  (As the counterexample
shows, a listed ID that does not resolve aborts the loop with NotFound,
leaving the remaining listed memories untouched, so C9's original
universal reading over mixed lists fails.) -/
theorem delete_memories_ignores_ownership (cfg : Config) (now : Int) (db : DB)
    (req : DeleteMemoriesRequest) (u : UserRow)
    (hu : findUser db req.user_id = some u)
    (hc : cfg.clientAvailable = true)
    (hall : ∀ mid ∈ req.memory_ids, (findMemory db mid).isSome = true) :
    ∃ db', delete_memories cfg now db req =
        .ok db' (req.memory_ids.map Effect.clientDelete) req.memory_ids.length ∧
      (∀ mid ∈ req.memory_ids, ∃ m m', findMemory db mid = some m ∧
         findMemory db' mid = some m' ∧ m'.state = MemoryState.deleted ∧
         m'.ownerId = m.ownerId) ∧
      (∀ mid ∈ req.memory_ids, ∃ old,
         (⟨mid, u.id, old, MemoryState.deleted⟩ : HistoryRow) ∈ db'.history) := by
  have hframe := foldl_deleteAttachments_frame req.memory_ids db
  have hA : (if req.delete_attachments
             then req.memory_ids.foldl deleteAttachmentsForMemory db
             else db).memories = db.memories := by
    split
    · exact hframe.2.2.1
    · rfl
  have hH : (if req.delete_attachments
             then req.memory_ids.foldl deleteAttachmentsForMemory db
             else db).history = db.history := by
    split
    · exact hframe.2.2.2.1
    · rfl
  obtain ⟨db', hloop, -, hdel, hhistrow, -⟩ :=
    delete_memories_loop_ok now u.id req.memory_ids
      (if req.delete_attachments
       then req.memory_ids.foldl deleteAttachmentsForMemory db
       else db) db [] hA hH hall
  refine ⟨db', ?_, hdel, hhistrow⟩
  unfold delete_memories
  rw [hu, hc]
  simp only [Bool.not_true, Bool.false_eq_true, if_false]
  rw [hloop]
  simp

/-- Store for the C9 counterexample and witness: the requesting user
`alice` exists, the listed memory belongs to `bob`. -/
def c9DB : DB :=
  { users := [⟨"U1", "alice"⟩, ⟨"U2", "bob"⟩],
    memories := [⟨"m1", "U2", "A1", "bobs memory", [], .active, none, none⟩] }

/-- Counterexample to C9: with the list `[zz, m1]`, the unresolvable ID
`zz` raises NotFound after its vector-store delete, and the resolvable
listed memory `m1` is never transitioned — it stays `active` in the
returned (last-committed) state. -/
theorem delete_memories_aborts_on_missing_id :
    delete_memories {} 0 c9DB ⟨["zz", "m1"], "alice", false⟩ =
      .err c9DB [Effect.clientDelete "zz"] .notFound ∧
    findMemory c9DB "m1" =
      some ⟨"m1", "U2", "A1", "bobs memory", [], .active, none, none⟩ := by
  exact ⟨rfl, rfl⟩

/-- Witness for the amended C9: `alice` deletes `bob`'s memory — the
transition happens although the owner differs from the requester. -/
theorem delete_memories_ignores_ownership_witness :
    findUser c9DB "alice" = some ⟨"U1", "alice"⟩ ∧
    (∀ mid ∈ ["m1"], (findMemory c9DB mid).isSome = true) ∧
    (∃ db', delete_memories {} 0 c9DB ⟨["m1"], "alice", false⟩ =
        .ok db' (["m1"].map Effect.clientDelete) (["m1"] : List String).length ∧
      (∀ mid ∈ ["m1"], ∃ m m', findMemory c9DB mid = some m ∧
         findMemory db' mid = some m' ∧ m'.state = MemoryState.deleted ∧
         m'.ownerId = m.ownerId) ∧
      (∀ mid ∈ ["m1"], ∃ old,
         (⟨mid, "U1", old, MemoryState.deleted⟩ : HistoryRow) ∈ db'.history)) := by
  refine ⟨rfl, by decide, ?_⟩
  exact delete_memories_ignores_ownership {} 0 c9DB ⟨["m1"], "alice", false⟩
    ⟨"U1", "alice"⟩ rfl rfl (by decide)

/-! ### Claim C5 -/

theorem deleteAttachmentsForMemory_invalid (db : DB) (x : String)
    (h : findMemory db x = none) : deleteAttachmentsForMemory db x = db := by
  unfold deleteAttachmentsForMemory
  rw [h]

theorem foldl_deleteAttachments_invalid (ids : List String) (db : DB)
    (h : ∀ x ∈ ids, findMemory db x = none) :
    ids.foldl deleteAttachmentsForMemory db = db := by
  induction ids with
  | nil => rfl
  | cons a t ih =>
    simp only [List.foldl_cons]
    rw [deleteAttachmentsForMemory_invalid db a (h a (by simp))]
    exact ih (fun x hx => h x (by simp [hx]))

/-- C5 (amended): the MCP `delete_memories` tool replies with an error
payload and changes nothing when the ID list is empty or no listed ID
resolves; the REST endpoint instead returns success with count 0 on an
empty list, and on a non-empty all-unresolvable list fails with NotFound
leaving the metadata store unchanged — but only after issuing the
idempotent vector-store delete for the first listed ID. -/
theorem delete_memories_empty_or_invalid (cfg : Config) (now : Int) (db : DB)
    (req : DeleteMemoriesRequest) (uid clientName : Option String)
    (freshU freshA : String) (isValidUUID : String → Bool)
    (perm : Mem → String → Bool) (u : UserRow) (a : AppRow) :
    (findUser db req.user_id = some u → cfg.clientAvailable = true →
       req.memory_ids = [] → delete_memories cfg now db req = .ok db [] 0) ∧
    (findUser db req.user_id = some u → cfg.clientAvailable = true →
       (∀ x ∈ req.memory_ids, findMemory db x = none) →
       ∀ mid rest, req.memory_ids = mid :: rest →
       delete_memories cfg now db req = .err db [Effect.clientDelete mid] .notFound) ∧
    (pyTruthyStr uid = true → pyTruthyStr clientName = true →
       cfg.clientAvailable = true →
       findUser db (uid.getD "") = some u →
       db.apps.find? (fun ap => ap.name = clientName.getD "" ∧ ap.ownerId = u.id) = some a →
       (∀ x ∈ req.memory_ids, findMemory db x = none) →
       mcp_delete_memories cfg now freshU freshA uid clientName isValidUUID perm db
         req.memory_ids req.delete_attachments = (db, [], .noValidMemories)) := by
  refine ⟨?_, ?_, ?_⟩
  · intro hu hc hids
    unfold delete_memories
    rw [hu, hc, hids]
    simp [delete_memories_loop]
  · intro hu hc hinv mid rest hids
    unfold delete_memories
    rw [hu, hc, hids]
    simp only [Bool.not_true, Bool.false_eq_true, if_false]
    have hfold : (if req.delete_attachments
        then (mid :: rest).foldl deleteAttachmentsForMemory db else db) = db := by
      split
      · exact foldl_deleteAttachments_invalid (mid :: rest) db (hids ▸ hinv)
      · rfl
    rw [hfold]
    unfold delete_memories_loop
    rw [update_memory_state_none now db mid MemoryState.deleted u.id
      (hinv mid (by rw [hids]; simp))]
    simp
  · intro hut hct hc hu ha hinv
    unfold mcp_delete_memories
    rw [hut, hct, hc]
    simp only [Bool.not_true, Bool.false_eq_true, if_false]
    unfold get_user_and_app
    rw [hu]
    dsimp only
    rw [ha]
    dsimp only
    have hfilter : req.memory_ids.filter (fun s =>
        isValidUUID s &&
          (match findMemory db s with
           | some m => perm m a.id
           | none => false)) = [] := by
      rw [List.filter_eq_nil_iff]
      intro x hx
      rw [hinv x hx]
      simp
    rw [hfilter]
    simp

/-- Store for the C5 witness. -/
def c5DB : DB :=
  { users := [⟨"U1", "alice"⟩], apps := [⟨"A1", "clientx", "U1", true⟩] }

/-- Witness for the amended C5 at concrete inputs: empty REST list gives
success with count 0, an unresolvable REST list gives NotFound after one
vector delete, and the MCP tool gives the error payload with no
effects. -/
theorem delete_memories_empty_or_invalid_witness :
    delete_memories {} 0 c5DB ⟨[], "alice", false⟩ = .ok c5DB [] 0 ∧
    delete_memories {} 0 c5DB ⟨["zz"], "alice", false⟩ =
      .err c5DB [Effect.clientDelete "zz"] .notFound ∧
    mcp_delete_memories {} 0 "UF" "AF" (some "alice") (some "clientx")
      (fun _ => true) (fun _ _ => true) c5DB ["zz"] false =
      (c5DB, [], .noValidMemories) := by
  refine ⟨?_, ?_, ?_⟩
  · exact (delete_memories_empty_or_invalid {} 0 c5DB ⟨[], "alice", false⟩
      (some "alice") (some "clientx") "UF" "AF" (fun _ => true) (fun _ _ => true)
      ⟨"U1", "alice"⟩ ⟨"A1", "clientx", "U1", true⟩).1 rfl rfl rfl
  · exact (delete_memories_empty_or_invalid {} 0 c5DB ⟨["zz"], "alice", false⟩
      (some "alice") (some "clientx") "UF" "AF" (fun _ => true) (fun _ _ => true)
      ⟨"U1", "alice"⟩ ⟨"A1", "clientx", "U1", true⟩).2.1 rfl rfl (by decide) "zz" [] rfl
  · exact (delete_memories_empty_or_invalid {} 0 c5DB ⟨["zz"], "alice", false⟩
      (some "alice") (some "clientx") "UF" "AF" (fun _ => true) (fun _ _ => true)
      ⟨"U1", "alice"⟩ ⟨"A1", "clientx", "U1", true⟩).2.2 rfl rfl rfl rfl (by decide) (by decide)

/-- Counterexample to C5: the REST `delete_memories` with an empty ID
list returns success ("Successfully deleted 0 memories"), not NotFound. -/
theorem rest_delete_memories_empty_succeeds :
    delete_memories {} 0 c5DB ⟨[], "alice", false⟩ = .ok c5DB [] 0 := by
  rfl

/-! ### Claim C3 -/

/-- Store for the C3 evaluation: one user owning one active memory. -/
def c3DB : DB :=
  { users := [⟨"U1", "u1"⟩],
    apps := [⟨"A1", "appx", "U1", true⟩],
    memories := [⟨"m1", "U1", "A1", "likes hiking", [], .active, none, none⟩] }

/-- One matching hit returned by the vector store for the C3 query. -/
def c3hits : List Hit := [⟨some "m1", 9, [("data", MVal.str "likes hiking")]⟩]

/-- C3: evaluation of `search_memory` when the permission check denies
every one of the user's memories and the vector store returns a matching
hit.  The empty accessible list makes `allowed` fall back to `None`, the
guard `h.id not in allowed` then raises `TypeError`, and the tool returns
the caught-exception error payload — not the zero-hit result payload the
claim requires. -/
theorem search_memory_denied_all_raises :
    c3hits ≠ [] ∧
    search_memory {} "UF" "AF" (fun _ _ => false) (fun _ => true) c3hits
      (some "u1") (some "appx") none false none c3DB = (c3DB, .raisedError) := by
  exact ⟨by decide, rfl⟩

end Mem0
